import Mathlib

/-!
# Verification of the Stina calendar extension's sync, cache and reminder core

This file is a shallow embedding, in Lean 4, of the core of the
`stina-ext-calendar` extension: the event cache repository
(`EventsRepository`), the OAuth2 credential refresher
(`ensureFreshCredentials`), the Google provider's incremental sync
(`GoogleCalendarProvider.syncEvents`), the sync orchestrator
(`syncAccountEvents` / `syncAllAccountsWithContext`), the background
worker's reminder phase, and the iCal recurrence expansion
(`parseICalData`).

Conventions of the embedding:
* ISO 8601 UTC instants are modelled as integers (`Timestamp`,
  milliseconds since the epoch).  The source compares ISO strings
  lexicographically, which for the fixed-width UTC format produced by
  `Date.prototype.toISOString` agrees with chronological order.
* The host's persistent keyed storage is modelled per collection as a
  list of documents; `put` replaces the documents holding the given key
  and otherwise appends, `find` filters by the equality query, sorts and
  truncates, `findOne` returns the first match, `delete` removes by key.
* `generateId` (`Math.random` + `Date.now`) is modelled as a fresh-id
  counter (`nextId`): every id handed out is a `Nat` not yet present in
  the store.
* Asynchronous effects are sequentialised; network calls are supplied as
  explicit inputs (`Except String _` values or functions producing
  them), mirroring the data each `fetch` would have returned.
* JavaScript truthiness tests on optional strings (`if (x)`,
  `x || fallback`) are modelled explicitly: `none` and the empty string
  are falsy.
-/

/-- Milliseconds since the Unix epoch, standing for an ISO 8601 UTC
instant (`Date#toISOString` output order agrees with numeric order). -/
abbrev Timestamp := Int

/-- JavaScript truthiness of an optional string: `undefined`/`null` and
`""` are falsy. -/
def strPresent : Option String → Bool
  | some s => !s.isEmpty
  | none => false

/-- JavaScript `a || b` for an optional string `a` and a string
fallback `b`. -/
def jsOr (a : Option String) (b : String) : String :=
  match a with
  | some s => if s.isEmpty then b else s
  | none => b

/-- JavaScript `a || null` for an optional string: the empty string is
collapsed to `null`. -/
def jsOrNull (a : Option String) : Option String :=
  match a with
  | some s => if s.isEmpty then none else some s
  | none => none

/-! ## Event documents (src/db/eventsRepository.ts, `EventDocument`) -/

/-- A cached event row, as persisted in the `events` collection.
Field for field the `EventDocument` interface of the events repository;
`id` is a `Nat` because `generateId` is modelled by a counter. -/
structure EventDocument where
  id : Nat
  accountId : String
  calendarId : String
  uid : String
  title : String
  description : Option String
  location : Option String
  startAt : Timestamp
  endAt : Timestamp
  allDay : Bool
  recurrenceRule : Option String
  organizer : Option String
  attendees : List String
  responseStatus : Option String
  remoteUrl : Option String
  etag : Option String
  rawIcs : Option String
  createdAt : Timestamp
  updatedAt : Timestamp
deriving DecidableEq, Repr

/-- `ListEventsOptions` of the extension's types: every field optional;
`list` applies the defaults `limit = 100`, `offset = 0`. -/
structure ListEventsOptions where
  accountId : Option String := none
  fromAt : Option Timestamp := none
  toAt : Option Timestamp := none
  limit : Option Nat := none
  offset : Option Nat := none

/-- The storage backend's `find` on the `events` collection: filter by
the equality query (the `accountId` key is added only when the option is
truthy), sort ascending by `startAt`, truncate to `limit` documents.
The repository's `toCalendarEvent` is a field-for-field copy and is
therefore dropped from the embedding. -/
def storageFindEvents (events : List EventDocument) (accountId : Option String)
    (limit : Nat) : List EventDocument :=
  let base := if strPresent accountId then
      events.filter (fun d => d.accountId == accountId.getD "")
    else events
  (base.insertionSort (fun a b => a.startAt ≤ b.startAt)).take limit

/-- `EventsRepository.list` (src/db/eventsRepository.ts): queries storage
sorted by `startAt` ascending with `limit: limit + offset`, then filters
by range overlap (`endAt >= from`, `startAt <= to`), excludes declined
events, and finally takes `slice(offset, offset + limit)`. -/
def EventsRepository.list (events : List EventDocument)
    (options : ListEventsOptions) : List EventDocument :=
  let limit := options.limit.getD 100
  let offset := options.offset.getD 0
  let docs := storageFindEvents events options.accountId (limit + offset)
  let f1 := match options.fromAt with
    | some f => docs.filter (fun (d : EventDocument) => decide (f ≤ d.endAt))
    | none => docs
  let f2 := match options.toAt with
    | some t => f1.filter (fun (d : EventDocument) => decide (d.startAt ≤ t))
    | none => f1
  let f3 := f2.filter (fun (d : EventDocument) => d.responseStatus != some "declined")
  (f3.drop offset).take limit

/-- `EventsRepository.getUpcoming`: delegates to `list` with the given
range and a fixed `limit` of 200 (offset left at its default). -/
def EventsRepository.getUpcoming (events : List EventDocument)
    (fromDate toDate : Timestamp) : List EventDocument :=
  EventsRepository.list events
    { fromAt := some fromDate, toAt := some toDate, limit := some 200 }

/-- The `list` contract as the specification words it: take the events
of the account, keep those overlapping `[from, to]`, drop declined
events, order by start ascending, and only then apply `offset`/`limit`.
(Refinement reference for the repository's `list`.) -/
def listSpecDescription (events : List EventDocument)
    (options : ListEventsOptions) : List EventDocument :=
  let limit := options.limit.getD 100
  let offset := options.offset.getD 0
  let base := if strPresent options.accountId then
      events.filter (fun d => d.accountId == options.accountId.getD "")
    else events
  let sorted := base.insertionSort (fun a b => a.startAt ≤ b.startAt)
  let f1 := match options.fromAt with
    | some f => sorted.filter (fun (d : EventDocument) => decide (f ≤ d.endAt))
    | none => sorted
  let f2 := match options.toAt with
    | some t => f1.filter (fun (d : EventDocument) => decide (d.startAt ≤ t))
    | none => f1
  let f3 := f2.filter (fun (d : EventDocument) => d.responseStatus != some "declined")
  (f3.drop offset).take limit

/-- The background worker's reminder phase (src/worker.ts): the events a
reminder pass examines are exactly `getUpcoming(now, now + 24h)`. -/
def workerUpcomingEvents (events : List EventDocument) (now : Timestamp) :
    List EventDocument :=
  EventsRepository.getUpcoming events now (now + 24 * 60 * 60 * 1000)

/-- Any member of a `list` result survived the declined-filter. -/
theorem mem_list_not_declined {events : List EventDocument}
    {options : ListEventsOptions} {e : EventDocument}
    (hmem : e ∈ EventsRepository.list events options) :
    e.responseStatus ≠ some "declined" := by
  simp only [EventsRepository.list] at hmem
  have h2 := List.mem_of_mem_drop (List.mem_of_mem_take hmem)
  have h3 := (List.mem_filter.mp h2).2
  simpa using h3

/-- C7: an event whose `responseStatus` is `declined` never appears in
the results of `list()` or `getUpcoming()`, whatever the account, range,
limit and offset arguments are. -/
theorem declined_never_listed :
    ∀ (events : List EventDocument) (options : ListEventsOptions)
      (fromDate toDate : Timestamp) (e : EventDocument),
      (e ∈ EventsRepository.list events options →
        e.responseStatus ≠ some "declined") ∧
      (e ∈ EventsRepository.getUpcoming events fromDate toDate →
        e.responseStatus ≠ some "declined") := by
  intro events options fromDate toDate e
  exact ⟨fun h => mem_list_not_declined h, fun h => mem_list_not_declined h⟩

/-- A sample cached event used to exercise `declined_never_listed`. -/
def sampleDocC7 : EventDocument :=
  { id := 7, accountId := "acc", calendarId := "cal", uid := "uid7",
    title := "standup", description := none, location := none,
    startAt := 0, endAt := 1, allDay := false, recurrenceRule := none,
    organizer := none, attendees := [], responseStatus := none,
    remoteUrl := none, etag := none, rawIcs := none,
    createdAt := 0, updatedAt := 0 }

/-- Witness for `declined_never_listed` at a concrete store: the sample
document is listed, hence not declined. -/
theorem declined_never_listed_witness :
    sampleDocC7.responseStatus ≠ some "declined" :=
  (declined_never_listed [sampleDocC7] {} 0 1 sampleDocC7).1 (by decide)

/-- The `list` result never exceeds the requested limit. -/
theorem list_length_le (events : List EventDocument)
    (options : ListEventsOptions) :
    (EventsRepository.list events options).length ≤ options.limit.getD 100 := by
  unfold EventsRepository.list
  simp only [List.length_take]
  omega

/-- C10: `getUpcoming(from, to)` is `list` with a fixed limit of 200 and
default offset 0, so it returns at most 200 events, and so a reminder
pass (which scans `workerUpcomingEvents`) examines at most 200 events. -/
theorem getUpcoming_capped_at_200 :
    ∀ (events : List EventDocument) (fromDate toDate now : Timestamp),
      EventsRepository.getUpcoming events fromDate toDate =
        EventsRepository.list events
          { fromAt := some fromDate, toAt := some toDate, limit := some 200 } ∧
      (EventsRepository.getUpcoming events fromDate toDate).length ≤ 200 ∧
      (workerUpcomingEvents events now).length ≤ 200 := by
  intro events fromDate toDate now
  refine ⟨rfl, ?_, ?_⟩
  · exact list_length_le events _
  · exact list_length_le events _

/-- A declined event that sorts first, for the `list` truncation
counterexample. -/
def declinedDocC6 : EventDocument :=
  { id := 1, accountId := "acc", calendarId := "cal", uid := "u1",
    title := "A", description := none, location := none,
    startAt := 0, endAt := 10, allDay := false, recurrenceRule := none,
    organizer := none, attendees := [], responseStatus := some "declined",
    remoteUrl := none, etag := none, rawIcs := none,
    createdAt := 0, updatedAt := 0 }

/-- A non-declined event that sorts second, for the `list` truncation
counterexample. -/
def okDocC6 : EventDocument :=
  { id := 2, accountId := "acc", calendarId := "cal", uid := "u2",
    title := "B", description := none, location := none,
    startAt := 5, endAt := 15, allDay := false, recurrenceRule := none,
    organizer := none, attendees := [], responseStatus := none,
    remoteUrl := none, etag := none, rawIcs := none,
    createdAt := 0, updatedAt := 0 }

/-- C6 counterexample: with a declined event sorting first and
`limit = 1`, `list` returns nothing (the storage query is truncated to
`limit + offset` documents BEFORE the overlap/declined filters run),
while the claimed filter-then-slice contract returns the non-declined
event.  So `list` does not apply offset/limit after the filtering. -/
theorem list_truncates_before_filtering :
    EventsRepository.list [declinedDocC6, okDocC6] { limit := some 1 } ≠
      listSpecDescription [declinedDocC6, okDocC6] { limit := some 1 } := by
  decide

/-- C6 (amended): provided the account-filtered collection holds at most
`limit + offset` documents (so the storage-level truncation drops
nothing), `list` returns exactly the non-declined events overlapping
`[from, to]` (overlap iff `end ≥ from` and `start ≤ to`), ordered by
start ascending, with offset and limit applied after the filtering. -/
theorem list_spec_of_no_truncation :
    ∀ (events : List EventDocument) (options : ListEventsOptions),
      (if strPresent options.accountId then
          events.filter (fun d => d.accountId == options.accountId.getD "")
        else events).length ≤ options.limit.getD 100 + options.offset.getD 0 →
      EventsRepository.list events options = listSpecDescription events options := by
  intro events options h
  have hlen : ((if strPresent options.accountId then
      events.filter (fun d => d.accountId == options.accountId.getD "")
    else events).insertionSort
      (fun a b => a.startAt ≤ b.startAt)).length ≤
      options.limit.getD 100 + options.offset.getD 0 := by
    rw [List.length_insertionSort]; exact h
  simp only [EventsRepository.list, listSpecDescription, storageFindEvents,
    List.take_of_length_le hlen]

/-- Witness for `list_spec_of_no_truncation`: a two-document store with
the default limit, where truncation is inactive. -/
theorem list_spec_of_no_truncation_witness :
    EventsRepository.list [declinedDocC6, okDocC6] {} =
      listSpecDescription [declinedDocC6, okDocC6] {} :=
  list_spec_of_no_truncation [declinedDocC6, okDocC6] {} (by decide)

/-! ## Reminder engine (src/worker.ts, reminder phase) -/

/-- `REMINDER_GRACE_MS`: 5 minute grace period for reminders. -/
def REMINDER_GRACE_MS : Int := 5 * 60 * 1000

/-- `POLL_INTERVAL_MS`: the worker's 10 minute poll ceiling. -/
def POLL_INTERVAL_MS : Int := 10 * 60 * 1000

/-- The de-duplication key `` `${event.uid}-${event.startAt}` `` of the
worker's in-memory `firedReminders` set (the ISO start instant is
rendered through the integer model). -/
def reminderKey (uid : String) (startAt : Timestamp) : String :=
  uid ++ "-" ++ toString startAt

/-- One reminder pass of the worker over the upcoming events: for each
event, skip it if its key is in the fired set; otherwise compute
`reminderMs = startAt - reminderMinutes` and fire iff
`reminderMs <= now && reminderMs > now - REMINDER_GRACE_MS`.  `deliver`
abstracts `fireReminder`'s success: on success the key is added to the
fired set, on a thrown delivery error it is not (the error is logged and
processing continues).  Returns the attempts made in order (key paired
with delivery success) and the updated fired set; the `earliestFuture`
sleep computation of the source carries no observable state and is
omitted. -/
def reminderPass (deliver : EventDocument → Bool) (now reminderMinutes : Int)
    (fired : List String) : List EventDocument → List (String × Bool) × List String
  | [] => ([], fired)
  | e :: rest =>
    let key := reminderKey e.uid e.startAt
    if fired.contains key then reminderPass deliver now reminderMinutes fired rest
    else
      let reminderMs := e.startAt - reminderMinutes * 60 * 1000
      if reminderMs ≤ now ∧ reminderMs > now - REMINDER_GRACE_MS then
        if deliver e then
          let r := reminderPass deliver now reminderMinutes (key :: fired) rest
          ((key, true) :: r.1, r.2)
        else
          let r := reminderPass deliver now reminderMinutes fired rest
          ((key, false) :: r.1, r.2)
      else reminderPass deliver now reminderMinutes fired rest

/-- Successive reminder passes of one worker process: the fired set is
created once per background task and threaded through every pass; each
pass has its own `now` and its own upcoming-events query result. -/
def reminderRun (deliver : Int → EventDocument → Bool) (reminderMinutes : Int)
    (fired : List String) :
    List (Int × List EventDocument) → List (String × Bool) × List String
  | [] => ([], fired)
  | p :: rest =>
    let r1 := reminderPass (deliver p.1) p.1 reminderMinutes fired p.2
    let r2 := reminderRun deliver reminderMinutes r1.2 rest
    (r1.1 ++ r2.1, r2.2)

/-- Number of successfully delivered fires for a given key. -/
def countFires (attempts : List (String × Bool)) (k : String) : Nat :=
  attempts.countP (fun a => a.1 == k && a.2)

/-- Number of fire attempts (delivered or not) for a given key. -/
def countAttempts (attempts : List (String × Bool)) (k : String) : Nat :=
  attempts.countP (fun a => a.1 == k)

theorem countFires_le_countAttempts (attempts : List (String × Bool))
    (k : String) : countFires attempts k ≤ countAttempts attempts k :=
  List.countP_mono_left (fun x _ h => by
    simpa using (Bool.and_eq_true _ _ |>.mp h).1)

/-- Keys already in the fired set stay in it across a pass. -/
theorem reminderPass_fired_mono (deliver : EventDocument → Bool)
    (now reminderMinutes : Int) (k : String) :
    ∀ (events : List EventDocument) (fired : List String), k ∈ fired →
      k ∈ (reminderPass deliver now reminderMinutes fired events).2 := by
  intro events
  induction events with
  | nil => intro fired h; simpa [reminderPass] using h
  | cons e rest ih =>
    intro fired h
    by_cases h1 : fired.contains (reminderKey e.uid e.startAt) = true
    · simpa only [reminderPass, h1, if_true] using ih fired h
    · by_cases h2 : e.startAt - reminderMinutes * 60 * 1000 ≤ now ∧
        e.startAt - reminderMinutes * 60 * 1000 > now - REMINDER_GRACE_MS
      · by_cases h3 : deliver e = true
        · simpa only [reminderPass, if_neg h1, if_pos h2, if_pos h3]
            using ih _ (List.mem_cons_of_mem _ h)
        · simpa only [reminderPass, if_neg h1, if_pos h2, if_neg h3]
            using ih fired h
      · simpa only [reminderPass, if_neg h1, if_neg h2] using ih fired h

/-- A key already in the fired set is never attempted again in a pass. -/
theorem reminderPass_no_attempt_of_fired (deliver : EventDocument → Bool)
    (now reminderMinutes : Int) (k : String) :
    ∀ (events : List EventDocument) (fired : List String), k ∈ fired →
      countAttempts (reminderPass deliver now reminderMinutes fired events).1 k = 0 := by
  intro events
  induction events with
  | nil => intro fired h; simp [reminderPass, countAttempts]
  | cons e rest ih =>
    intro fired h
    by_cases h1 : fired.contains (reminderKey e.uid e.startAt) = true
    · simpa only [reminderPass, h1, if_true] using ih fired h
    · have hkey : (reminderKey e.uid e.startAt == k) = false := by
        by_cases hk : reminderKey e.uid e.startAt = k
        · refine absurd ?_ h1
          rw [hk]
          exact List.elem_eq_true_of_mem h
        · exact beq_eq_false_iff_ne.mpr hk
      by_cases h2 : e.startAt - reminderMinutes * 60 * 1000 ≤ now ∧
        e.startAt - reminderMinutes * 60 * 1000 > now - REMINDER_GRACE_MS
      · by_cases h3 : deliver e = true
        · have hih := ih (reminderKey e.uid e.startAt :: fired)
            (List.mem_cons_of_mem _ h)
          simp only [countAttempts] at hih
          simp only [reminderPass, if_neg h1, if_pos h2, if_pos h3, countAttempts,
            List.countP_cons]
          simp [hih, hkey]
        · have hih := ih fired h
          simp only [countAttempts] at hih
          simp only [reminderPass, if_neg h1, if_pos h2, if_neg h3, countAttempts,
            List.countP_cons]
          simp [hih, hkey]
      · simpa only [reminderPass, if_neg h1, if_neg h2] using ih fired h

/-- A successful fire for a key puts that key into the fired set. -/
theorem reminderPass_mem_of_fire (deliver : EventDocument → Bool)
    (now reminderMinutes : Int) (k : String) :
    ∀ (events : List EventDocument) (fired : List String),
      1 ≤ countFires (reminderPass deliver now reminderMinutes fired events).1 k →
      k ∈ (reminderPass deliver now reminderMinutes fired events).2 := by
  intro events
  induction events with
  | nil => intro fired h; simp [reminderPass, countFires] at h
  | cons e rest ih =>
    intro fired h
    by_cases h1 : fired.contains (reminderKey e.uid e.startAt) = true
    · simp only [reminderPass, h1, if_true] at h ⊢
      exact ih fired h
    · by_cases h2 : e.startAt - reminderMinutes * 60 * 1000 ≤ now ∧
        e.startAt - reminderMinutes * 60 * 1000 > now - REMINDER_GRACE_MS
      · by_cases h3 : deliver e = true
        · simp only [reminderPass, if_neg h1, if_pos h2, if_pos h3] at h ⊢
          by_cases hk : reminderKey e.uid e.startAt = k
          · exact reminderPass_fired_mono deliver now reminderMinutes k rest _
              (by simp [hk])
          · exact ih _ (by simpa [countFires, List.countP_cons, hk] using h)
        · simp only [reminderPass, if_neg h1, if_pos h2, if_neg h3] at h ⊢
          exact ih fired (by simpa [countFires, List.countP_cons] using h)
      · simp only [reminderPass, if_neg h1, if_neg h2] at h ⊢
        exact ih fired h

/-- Within a single pass each key is successfully fired at most once. -/
theorem reminderPass_countFires_le_one (deliver : EventDocument → Bool)
    (now reminderMinutes : Int) (k : String) :
    ∀ (events : List EventDocument) (fired : List String),
      countFires (reminderPass deliver now reminderMinutes fired events).1 k ≤ 1 := by
  intro events
  induction events with
  | nil => intro fired; simp [reminderPass, countFires]
  | cons e rest ih =>
    intro fired
    by_cases h1 : fired.contains (reminderKey e.uid e.startAt) = true
    · simp only [reminderPass, h1, if_true]
      exact ih fired
    · by_cases h2 : e.startAt - reminderMinutes * 60 * 1000 ≤ now ∧
        e.startAt - reminderMinutes * 60 * 1000 > now - REMINDER_GRACE_MS
      · by_cases h3 : deliver e = true
        · simp only [reminderPass, if_neg h1, if_pos h2, if_pos h3]
          by_cases hk : reminderKey e.uid e.startAt = k
          · have h0 := reminderPass_no_attempt_of_fired deliver now reminderMinutes
              k rest (reminderKey e.uid e.startAt :: fired) (by simp [hk])
            have h4 := countFires_le_countAttempts
              (reminderPass deliver now reminderMinutes
                (reminderKey e.uid e.startAt :: fired) rest).1 k
            simp only [countFires, countAttempts, List.countP_cons] at h0 h4 ⊢
            simp only [hk] at h0 h4 ⊢
            simp only [beq_self_eq_true, Bool.and_true, if_true, ite_true]
            omega
          · have hih := ih (reminderKey e.uid e.startAt :: fired)
            simp only [countFires, List.countP_cons] at hih ⊢
            simp [beq_eq_false_iff_ne.mpr hk, hih]
        · simp only [reminderPass, if_neg h1, if_pos h2, if_neg h3]
          have hih := ih fired
          simp only [countFires, List.countP_cons] at hih ⊢
          simpa using hih
      · simp only [reminderPass, if_neg h1, if_neg h2]
        exact ih fired

/-- A key already in the fired set never fires again across the whole
remaining run of passes. -/
theorem reminderRun_countFires_zero_of_fired (deliver : Int → EventDocument → Bool)
    (reminderMinutes : Int) (k : String) :
    ∀ (passes : List (Int × List EventDocument)) (fired : List String), k ∈ fired →
      countFires (reminderRun deliver reminderMinutes fired passes).1 k = 0 := by
  intro passes
  induction passes with
  | nil => intro fired h; simp [reminderRun, countFires]
  | cons p rest ih =>
    intro fired h
    have hp : countFires (reminderPass (deliver p.1) p.1 reminderMinutes fired p.2).1 k = 0 :=
      Nat.le_zero.mp
        ((countFires_le_countAttempts _ k).trans
          (Nat.le_of_eq
            (reminderPass_no_attempt_of_fired (deliver p.1) p.1 reminderMinutes k p.2 fired h)))
    have hr := ih (reminderPass (deliver p.1) p.1 reminderMinutes fired p.2).2
      (reminderPass_fired_mono (deliver p.1) p.1 reminderMinutes k p.2 fired h)
    simp only [reminderRun, countFires, List.countP_append] at hp hr ⊢
    omega

/-- Across any sequence of passes of one process, each key is
successfully fired at most once. -/
theorem reminderRun_countFires_le_one (deliver : Int → EventDocument → Bool)
    (reminderMinutes : Int) (k : String) :
    ∀ (passes : List (Int × List EventDocument)) (fired : List String),
      countFires (reminderRun deliver reminderMinutes fired passes).1 k ≤ 1 := by
  intro passes
  induction passes with
  | nil => intro fired; simp [reminderRun, countFires]
  | cons p rest ih =>
    intro fired
    have hp1 := reminderPass_countFires_le_one (deliver p.1) p.1 reminderMinutes k p.2 fired
    have hr1 := ih (reminderPass (deliver p.1) p.1 reminderMinutes fired p.2).2
    by_cases hc : 1 ≤ countFires (reminderPass (deliver p.1) p.1 reminderMinutes fired p.2).1 k
    · have hmem := reminderPass_mem_of_fire (deliver p.1) p.1 reminderMinutes k p.2 fired hc
      have hz := reminderRun_countFires_zero_of_fired deliver reminderMinutes k rest _ hmem
      simp only [reminderRun, countFires, List.countP_append] at hp1 hr1 hz hc ⊢
      omega
    · simp only [reminderRun, countFires, List.countP_append] at hp1 hr1 hc ⊢
      omega

/-- The firing condition rewritten: `reminderMs <= now` together with
`reminderMs > now - grace` (grace = 5 min, lead = 15 min) says exactly
that `now` lies in the half-open window `[T - 15min, T - 15min + 5min)`. -/
theorem reminder_window_equiv (s now : Int) :
    (s - 15 * 60 * 1000 ≤ now ∧ s - 15 * 60 * 1000 > now - REMINDER_GRACE_MS) ↔
      (s - 900000 ≤ now ∧ now < s - 900000 + 300000) := by
  simp only [REMINDER_GRACE_MS]
  omega

/-- A cached event starting at instant `T = 1000000000`, used to settle
the reminder-window claim. -/
def c5Event : EventDocument :=
  { id := 5, accountId := "acc", calendarId := "cal", uid := "ev5",
    title := "meeting", description := none, location := none,
    startAt := 1000000000, endAt := 1000600000, allDay := false,
    recurrenceRule := none, organizer := none, attendees := [],
    responseStatus := none, remoteUrl := none, etag := none,
    rawIcs := none, createdAt := 0, updatedAt := 0 }

/-- C5 counterexample: with `reminderMinutes = 15` and start
`T = 1000000000`, the worker fires at `now = T - 700000`
(11 min 40 s before start), an instant NOT in the claimed interval
`(T - 15min - 5min, T - 15min]`; the claimed window lies on the wrong
side of the reminder instant. -/
theorem reminder_window_claim_false :
    (reminderPass (fun _ => true) 999300000 15 [] [c5Event]).1 ≠ [] ∧
    ¬(c5Event.startAt - 15 * 60 * 1000 - 5 * 60 * 1000 < 999300000 ∧
      (999300000 : Int) ≤ c5Event.startAt - 15 * 60 * 1000) := by
  decide

/-- C5 (amended): with reminder lead 15 min, a reminder pass fires an
event (whose key is not yet in the fired set) iff `now` lies in
`[T - 15min, T - 15min + 5min)` — the 5-minute grace window sits AFTER
the reminder instant, not before it; and across all passes of one
process lifetime each (uid, startAt) key is successfully fired at most
once (a failed delivery is not recorded and may be retried while the
window lasts). -/
theorem reminder_fire_window_and_dedup :
    (∀ (deliver : EventDocument → Bool) (now : Int) (fired : List String)
       (e : EventDocument),
      (reminderPass deliver now 15 fired [e]).1 ≠ [] ↔
        (fired.contains (reminderKey e.uid e.startAt) = false ∧
         e.startAt - 900000 ≤ now ∧ now < e.startAt - 900000 + 300000)) ∧
    (∀ (deliver : Int → EventDocument → Bool) (reminderMinutes : Int)
       (fired : List String) (passes : List (Int × List EventDocument))
       (k : String),
      countFires (reminderRun deliver reminderMinutes fired passes).1 k ≤ 1) := by
  constructor
  · intro deliver now fired e
    by_cases h1 : fired.contains (reminderKey e.uid e.startAt) = true
    · simp only [reminderPass, if_pos h1]
      constructor
      · intro hne; exact absurd rfl hne
      · rintro ⟨hc, -⟩
        rw [h1] at hc
        cases hc
    · have h1' : fired.contains (reminderKey e.uid e.startAt) = false := by
        simpa using h1
      by_cases h2 : e.startAt - 15 * 60 * 1000 ≤ now ∧
        e.startAt - 15 * 60 * 1000 > now - REMINDER_GRACE_MS
      · have hw := (reminder_window_equiv e.startAt now).mp h2
        cases h3 : deliver e
        · simp only [reminderPass]
          rw [if_neg h1, if_pos h2, if_neg (by simp [h3])]
          constructor
          · intro _; exact ⟨h1', hw.1, hw.2⟩
          · intro _; exact List.cons_ne_nil _ _
        · simp only [reminderPass]
          rw [if_neg h1, if_pos h2, if_pos h3]
          constructor
          · intro _; exact ⟨h1', hw.1, hw.2⟩
          · intro _; exact List.cons_ne_nil _ _
      · simp only [reminderPass]
        rw [if_neg h1, if_neg h2]
        constructor
        · intro hne; exact absurd rfl hne
        · rintro ⟨-, hA, hB⟩
          exact absurd ((reminder_window_equiv e.startAt now).mpr ⟨hA, hB⟩) h2
  · intro deliver reminderMinutes fired passes k
    exact reminderRun_countFires_le_one deliver reminderMinutes k passes fired

/-- Witness for `reminder_fire_window_and_dedup`: the sample event does
fire at an instant inside the corrected window. -/
theorem reminder_fire_window_witness :
    (reminderPass (fun _ => true) 999300000 15 [] [c5Event]).1 ≠ [] :=
  (reminder_fire_window_and_dedup.1 (fun _ => true) 999300000 [] c5Event).mpr
    (by decide)

/-! ## Events repository writes (src/db/eventsRepository.ts) -/

/-- `storage.put` on the `events` collection: replace the documents
stored under the key, else append. -/
def putEvent (events : List EventDocument) (id : Nat) (doc : EventDocument) :
    List EventDocument :=
  if events.any (fun d => d.id == id) then
    events.map (fun d => if d.id == id then doc else d)
  else events ++ [doc]

/-- `storage.findOne` with the `{ accountId, uid }` equality query, as
used by `getByUid`: the first document matching both keys. -/
def findOneByUid (events : List EventDocument) (accountId uid : String) :
    Option EventDocument :=
  events.find? (fun d => d.accountId == accountId && d.uid == uid)

/-- The `Omit<CalendarEvent, 'id' | 'createdAt' | 'updatedAt'>` payload
accepted by `upsertByUid` (its `accountId` member is ignored by the
repository, which uses the separate `accountId` argument, so it is left
out here; a missing `responseStatus` is `none`, matching `?? null`). -/
structure EventInput where
  calendarId : String
  uid : String
  title : String
  description : Option String
  location : Option String
  startAt : Timestamp
  endAt : Timestamp
  allDay : Bool
  recurrenceRule : Option String
  organizer : Option String
  attendees : List String
  responseStatus : Option String := none
  remoteUrl : Option String
  etag : Option String
  rawIcs : Option String
deriving DecidableEq, Repr

/-- `EventsRepository.upsertByUid`: look up the existing row by
`(accountId, uid)`; if found, keep `id`/`createdAt`, rewrite every other
field and set `updatedAt = now`; else create a row under a fresh id with
`createdAt = updatedAt = now`.  Returns the (row, new store) pair;
`now` models `new Date().toISOString()` and `freshId` models
`generateId('evt')`. -/
def EventsRepository.upsertByUid (events : List EventDocument)
    (accountId : String) (event : EventInput) (now : Timestamp)
    (freshId : Nat) : EventDocument × List EventDocument :=
  match findOneByUid events accountId event.uid with
  | some existing =>
    let doc : EventDocument :=
      { id := existing.id, accountId := accountId,
        calendarId := event.calendarId, uid := event.uid,
        title := event.title, description := event.description,
        location := event.location, startAt := event.startAt,
        endAt := event.endAt, allDay := event.allDay,
        recurrenceRule := event.recurrenceRule,
        organizer := event.organizer, attendees := event.attendees,
        responseStatus := event.responseStatus,
        remoteUrl := event.remoteUrl, etag := event.etag,
        rawIcs := event.rawIcs,
        createdAt := existing.createdAt, updatedAt := now }
    (doc, putEvent events existing.id doc)
  | none =>
    let doc : EventDocument :=
      { id := freshId, accountId := accountId,
        calendarId := event.calendarId, uid := event.uid,
        title := event.title, description := event.description,
        location := event.location, startAt := event.startAt,
        endAt := event.endAt, allDay := event.allDay,
        recurrenceRule := event.recurrenceRule,
        organizer := event.organizer, attendees := event.attendees,
        responseStatus := event.responseStatus,
        remoteUrl := event.remoteUrl, etag := event.etag,
        rawIcs := event.rawIcs,
        createdAt := now, updatedAt := now }
    (doc, putEvent events freshId doc)

/-- The `(accountId, uid)` reconciliation key of a cached row. -/
def eventKeyMatches (accountId uid : String) (d : EventDocument) : Bool :=
  d.accountId == accountId && d.uid == uid

/-- Number of cached rows holding a given `(accountId, uid)` key. -/
def keyCount (events : List EventDocument) (accountId uid : String) : Nat :=
  events.countP (eventKeyMatches accountId uid)

/-- The row ids of the store are pairwise distinct (`put` is a keyed
replace, `generateId` yields fresh ids). -/
def EventIdsNodup (events : List EventDocument) : Prop :=
  (events.map (fun d => d.id)).Nodup

theorem id_ne_of_mem_ne {events : List EventDocument}
    (hn : EventIdsNodup events) {a b : EventDocument}
    (ha : a ∈ events) (hb : b ∈ events) (hne : a ≠ b) : a.id ≠ b.id :=
  fun h => hne (List.inj_on_of_nodup_map hn ha hb h)

/-- Replacing under an id that no list member carries is the identity. -/
theorem map_replace_of_id_not_mem (doc : EventDocument) (tid : Nat) :
    ∀ (l : List EventDocument), (∀ x ∈ l, x.id ≠ tid) →
      l.map (fun x => if x.id == tid then doc else x) = l := by
  intro l
  induction l with
  | nil => intro _; rfl
  | cons d rest ih =>
    intro h
    have hd : ¬((d.id == tid) = true) :=
      fun hc => h d (List.mem_cons_self d rest) (beq_iff_eq.mp hc)
    rw [List.map_cons, if_neg hd, ih (fun x hx => h x (List.mem_cons_of_mem _ hx))]

/-- Replacement under an existing id keeps the id column unchanged. -/
theorem ids_map_replace (doc : EventDocument) (tid : Nat) (hid : doc.id = tid) :
    ∀ (l : List EventDocument),
      (l.map (fun x => if x.id == tid then doc else x)).map (fun d => d.id) =
        l.map (fun d => d.id) := by
  intro l
  induction l with
  | nil => rfl
  | cons d rest ih =>
    by_cases hd : d.id = tid
    · rw [List.map_cons, if_pos (beq_iff_eq.mpr hd), List.map_cons, List.map_cons, ih]
      congr 1
      rw [hid, hd]
    · rw [List.map_cons, if_neg (fun hc => hd (beq_iff_eq.mp hc)), List.map_cons,
        List.map_cons, ih]

theorem not_id_mem_of_not_mem_ids {rest : List EventDocument} {tid : Nat}
    (h : tid ∉ rest.map (fun d => d.id)) : ∀ x ∈ rest, x.id ≠ tid :=
  fun _x hx hxe => h (hxe ▸ List.mem_map_of_mem (fun d => d.id) hx)

/-- A keyed put under a fresh id appends the document. -/
theorem putEvent_append_of_fresh (events : List EventDocument)
    (doc : EventDocument) (i : Nat) (hf : ∀ d ∈ events, d.id ≠ i) :
    putEvent events i doc = events ++ [doc] := by
  have hany : events.any (fun d => d.id == i) = false := by
    rw [List.any_eq_false]
    intro x hx
    simpa using hf x hx
  rw [putEvent, hany]
  simp

/-- After a keyed replace of the first `p`-match by a `p`-matching
document under the same id, the first `p`-match is the replacement. -/
theorem find?_putEvent_replace (p : EventDocument → Bool) :
    ∀ (events : List EventDocument) (existing doc : EventDocument),
      EventIdsNodup events → events.find? p = some existing →
      doc.id = existing.id → p doc = true →
      (putEvent events existing.id doc).find? p = some doc := by
  intro events
  induction events with
  | nil => intro existing doc _ hfind; cases hfind
  | cons d rest ih =>
    intro existing doc hn hfind hid hp
    simp only [EventIdsNodup, List.map_cons, List.nodup_cons] at hn
    by_cases hpd : p d = true
    · have hex : existing = d := by
        rw [List.find?_cons_of_pos _ hpd] at hfind
        exact (Option.some.inj hfind).symm
      subst hex
      have hany : (existing :: rest).any (fun x => x.id == existing.id) = true := by
        simp
      rw [putEvent, hany, if_pos rfl, List.map_cons, if_pos (beq_iff_eq.mpr rfl),
        map_replace_of_id_not_mem _ _ rest (not_id_mem_of_not_mem_ids hn.1),
        List.find?_cons_of_pos _ hp]
    · rw [List.find?_cons_of_neg _ hpd] at hfind
      have hexm : existing ∈ rest := List.mem_of_find?_eq_some hfind
      have hdne : (d.id == existing.id) = false := by
        refine beq_eq_false_iff_ne.mpr (fun he => hn.1 ?_)
        exact he ▸ List.mem_map_of_mem (fun x => x.id) hexm
      have hanyr : rest.any (fun x => x.id == existing.id) = true :=
        List.any_eq_true.mpr ⟨existing, hexm, by simp⟩
      have hany : (d :: rest).any (fun x => x.id == existing.id) = true := by
        rw [List.any_cons, hdne, hanyr]
        rfl
      have hrec := ih existing doc hn.2 hfind hid hp
      rw [putEvent, hanyr, if_pos rfl] at hrec
      rw [putEvent, hany, if_pos rfl, List.map_cons, hdne]
      simp only [Bool.false_eq_true, if_false]
      rw [List.find?_cons_of_neg _ hpd]
      exact hrec

/-- After a keyed replace as above, exactly one row matches `p`,
provided at most one did before. -/
theorem countP_putEvent_replace (p : EventDocument → Bool) :
    ∀ (events : List EventDocument) (existing doc : EventDocument),
      EventIdsNodup events → events.find? p = some existing →
      events.countP p ≤ 1 → doc.id = existing.id → p doc = true →
      (putEvent events existing.id doc).countP p = 1 := by
  intro events
  induction events with
  | nil => intro existing doc _ hfind; cases hfind
  | cons d rest ih =>
    intro existing doc hn hfind hcount hid hp
    simp only [EventIdsNodup, List.map_cons, List.nodup_cons] at hn
    by_cases hpd : p d = true
    · have hex : existing = d := by
        rw [List.find?_cons_of_pos _ hpd] at hfind
        exact (Option.some.inj hfind).symm
      subst hex
      have hany : (existing :: rest).any (fun x => x.id == existing.id) = true := by
        simp
      have hrest0 : rest.countP p = 0 := by
        rw [List.countP_cons_of_pos _ _ hpd] at hcount
        omega
      rw [putEvent, hany, if_pos rfl, List.map_cons, if_pos (beq_iff_eq.mpr rfl),
        map_replace_of_id_not_mem _ _ rest (not_id_mem_of_not_mem_ids hn.1),
        List.countP_cons_of_pos _ _ hp, hrest0]
    · rw [List.find?_cons_of_neg _ hpd] at hfind
      have hexm : existing ∈ rest := List.mem_of_find?_eq_some hfind
      have hdne : (d.id == existing.id) = false := by
        refine beq_eq_false_iff_ne.mpr (fun he => hn.1 ?_)
        exact he ▸ List.mem_map_of_mem (fun x => x.id) hexm
      have hanyr : rest.any (fun x => x.id == existing.id) = true :=
        List.any_eq_true.mpr ⟨existing, hexm, by simp⟩
      have hany : (d :: rest).any (fun x => x.id == existing.id) = true := by
        rw [List.any_cons, hdne, hanyr]
        rfl
      have hcr : rest.countP p ≤ 1 := by
        rw [List.countP_cons_of_neg _ _ (by simpa using hpd)] at hcount
        exact hcount
      have hrec := ih existing doc hn.2 hfind hcr hid hp
      rw [putEvent, hanyr, if_pos rfl] at hrec
      rw [putEvent, hany, if_pos rfl, List.map_cons, hdne]
      simp only [Bool.false_eq_true, if_false]
      rw [List.countP_cons_of_neg _ _ (by simpa using hpd)]
      exact hrec

/-- A keyed replace under an existing id preserves distinctness of ids. -/
theorem eventIdsNodup_putEvent_replace {events : List EventDocument}
    (hn : EventIdsNodup events) {doc : EventDocument} {tid : Nat}
    (hid : doc.id = tid) : EventIdsNodup (putEvent events tid doc) := by
  unfold putEvent
  by_cases hany : events.any (fun d => d.id == tid) = true
  · rw [if_pos hany]
    unfold EventIdsNodup
    rw [ids_map_replace doc tid hid events]
    exact hn
  · rw [if_neg hany]
    unfold EventIdsNodup
    rw [List.map_append]
    refine List.nodup_append.mpr ⟨hn, by simp, ?_⟩
    intro x hx
    simp only [List.map_cons, List.map_nil, List.mem_cons, List.not_mem_nil,
      or_false] at *
    intro hxd
    apply hany
    rcases List.mem_map.mp hx with ⟨y, hy, hyx⟩
    exact List.any_eq_true.mpr ⟨y, hy, by rw [hyx, hxd, hid]; simp⟩

theorem findOneByUid_eq_find? (events : List EventDocument) (a u : String) :
    findOneByUid events a u = events.find? (eventKeyMatches a u) := rfl

theorem keyCount_eq_countP (events : List EventDocument) (a u : String) :
    keyCount events a u = events.countP (eventKeyMatches a u) := rfl

/-- `upsertByUid` hitting an existing row: the updated store has exactly
one row under the key, the next lookup returns the rewritten row, and
row ids stay distinct. -/
theorem upsertByUid_found (events : List EventDocument) (accountId : String)
    (e : EventInput) (now : Timestamp) (i : Nat) (existing : EventDocument)
    (hn : EventIdsNodup events)
    (hk : keyCount events accountId e.uid ≤ 1)
    (hfind : findOneByUid events accountId e.uid = some existing) :
    findOneByUid (EventsRepository.upsertByUid events accountId e now i).2
        accountId e.uid =
      some (EventsRepository.upsertByUid events accountId e now i).1 ∧
    keyCount (EventsRepository.upsertByUid events accountId e now i).2
        accountId e.uid = 1 ∧
    EventIdsNodup (EventsRepository.upsertByUid events accountId e now i).2 := by
  have hfind' : events.find? (eventKeyMatches accountId e.uid) = some existing := hfind
  simp only [EventsRepository.upsertByUid, hfind]
  refine ⟨?_, ?_, ?_⟩
  · exact find?_putEvent_replace _ events existing _ hn hfind' rfl
      (by simp [eventKeyMatches])
  · exact countP_putEvent_replace _ events existing _ hn hfind' hk rfl
      (by simp [eventKeyMatches])
  · exact eventIdsNodup_putEvent_replace hn rfl

/-- `upsertByUid` on a well-formed store (found row or not): one row
under the key afterwards, returned by the next lookup, ids distinct. -/
theorem upsertByUid_establishes (events : List EventDocument)
    (accountId : String) (e : EventInput) (now : Timestamp) (i : Nat)
    (hn : EventIdsNodup events)
    (hk : keyCount events accountId e.uid ≤ 1)
    (hf : ∀ d ∈ events, d.id ≠ i) :
    findOneByUid (EventsRepository.upsertByUid events accountId e now i).2
        accountId e.uid =
      some (EventsRepository.upsertByUid events accountId e now i).1 ∧
    keyCount (EventsRepository.upsertByUid events accountId e now i).2
        accountId e.uid = 1 ∧
    EventIdsNodup (EventsRepository.upsertByUid events accountId e now i).2 := by
  cases hfind : findOneByUid events accountId e.uid with
  | some existing => exact upsertByUid_found events accountId e now i existing hn hk hfind
  | none =>
    have hfind' : events.find? (eventKeyMatches accountId e.uid) = none := hfind
    simp only [EventsRepository.upsertByUid, hfind]
    refine ⟨?_, ?_, ?_⟩
    · rw [findOneByUid_eq_find?, putEvent_append_of_fresh events _ i hf,
        List.find?_append, hfind']
      simp [eventKeyMatches]
    · rw [keyCount_eq_countP, putEvent_append_of_fresh events _ i hf,
        List.countP_append]
      have h0 : events.countP (eventKeyMatches accountId e.uid) = 0 :=
        List.countP_eq_zero.mpr (by
          intro d hd
          simpa using List.find?_eq_none.mp hfind' d hd)
      rw [h0]
      simp [eventKeyMatches]
    · exact eventIdsNodup_putEvent_replace hn rfl

/-- Field content of the row returned when `upsertByUid` hits an
existing row: `id`/`createdAt` come from the existing row, every other
field from the new payload, `updatedAt = now`. -/
theorem upsertByUid_found_fields (events : List EventDocument)
    (accountId : String) (e : EventInput) (now : Timestamp) (i : Nat)
    (existing : EventDocument)
    (hfind : findOneByUid events accountId e.uid = some existing) :
    (EventsRepository.upsertByUid events accountId e now i).1.id = existing.id ∧
    (EventsRepository.upsertByUid events accountId e now i).1.createdAt
      = existing.createdAt ∧
    (EventsRepository.upsertByUid events accountId e now i).1.title = e.title ∧
    (EventsRepository.upsertByUid events accountId e now i).1.startAt = e.startAt ∧
    (EventsRepository.upsertByUid events accountId e now i).1.endAt = e.endAt ∧
    (EventsRepository.upsertByUid events accountId e now i).1.calendarId
      = e.calendarId ∧
    (EventsRepository.upsertByUid events accountId e now i).1.description
      = e.description ∧
    (EventsRepository.upsertByUid events accountId e now i).1.location
      = e.location ∧
    (EventsRepository.upsertByUid events accountId e now i).1.allDay = e.allDay ∧
    (EventsRepository.upsertByUid events accountId e now i).1.recurrenceRule
      = e.recurrenceRule ∧
    (EventsRepository.upsertByUid events accountId e now i).1.organizer
      = e.organizer ∧
    (EventsRepository.upsertByUid events accountId e now i).1.attendees
      = e.attendees ∧
    (EventsRepository.upsertByUid events accountId e now i).1.responseStatus
      = e.responseStatus ∧
    (EventsRepository.upsertByUid events accountId e now i).1.remoteUrl
      = e.remoteUrl ∧
    (EventsRepository.upsertByUid events accountId e now i).1.etag = e.etag ∧
    (EventsRepository.upsertByUid events accountId e now i).1.rawIcs = e.rawIcs ∧
    (EventsRepository.upsertByUid events accountId e now i).1.uid = e.uid ∧
    (EventsRepository.upsertByUid events accountId e now i).1.accountId
      = accountId ∧
    (EventsRepository.upsertByUid events accountId e now i).1.updatedAt = now := by
  simp [EventsRepository.upsertByUid, hfind]

/-- C2: calling `upsertByUid` twice with the same `(accountId, uid)` on
a well-formed store leaves exactly one cached row under the key; the row
keeps the `id` and `createdAt` of the first call's result, all
rewritable fields equal the second payload, and `updatedAt` is the
second call's timestamp. -/
theorem upsertByUid_idempotent_convergence
    (events : List EventDocument) (accountId : String) (e1 e2 : EventInput)
    (t1 t2 : Timestamp) (i1 i2 : Nat)
    (r1d : EventDocument) (r1s : List EventDocument)
    (r2d : EventDocument) (r2s : List EventDocument)
    (hn : EventIdsNodup events)
    (hk : keyCount events accountId e1.uid ≤ 1)
    (hf1 : ∀ d ∈ events, d.id ≠ i1)
    (huid : e2.uid = e1.uid)
    (hr1 : EventsRepository.upsertByUid events accountId e1 t1 i1 = (r1d, r1s))
    (hr2 : EventsRepository.upsertByUid r1s accountId e2 t2 i2 = (r2d, r2s)) :
    r2d.id = r1d.id ∧ r2d.createdAt = r1d.createdAt ∧
    r2d.title = e2.title ∧ r2d.startAt = e2.startAt ∧ r2d.endAt = e2.endAt ∧
    r2d.calendarId = e2.calendarId ∧ r2d.description = e2.description ∧
    r2d.location = e2.location ∧ r2d.allDay = e2.allDay ∧
    r2d.recurrenceRule = e2.recurrenceRule ∧ r2d.organizer = e2.organizer ∧
    r2d.attendees = e2.attendees ∧ r2d.responseStatus = e2.responseStatus ∧
    r2d.remoteUrl = e2.remoteUrl ∧ r2d.etag = e2.etag ∧ r2d.rawIcs = e2.rawIcs ∧
    r2d.updatedAt = t2 ∧
    keyCount r2s accountId e1.uid = 1 ∧
    findOneByUid r2s accountId e1.uid = some r2d := by
  obtain ⟨hfind1, hk1, hn1⟩ :=
    upsertByUid_establishes events accountId e1 t1 i1 hn hk hf1
  rw [hr1] at hfind1 hk1 hn1
  dsimp only at hfind1 hk1 hn1
  have hfind1' : findOneByUid r1s accountId e2.uid = some r1d := by
    rw [huid]; exact hfind1
  have hflds := upsertByUid_found_fields r1s accountId e2 t2 i2 r1d hfind1'
  rw [hr2] at hflds
  dsimp only at hflds
  obtain ⟨hfind2, hk2, hn2⟩ := upsertByUid_found r1s accountId e2 t2 i2 r1d hn1
    (by rw [huid]; exact le_of_eq hk1) hfind1'
  rw [hr2] at hfind2 hk2
  dsimp only at hfind2 hk2
  rw [huid] at hk2 hfind2
  obtain ⟨hid, hcr, hti, hst, hen, hca, hde, hlo, had, hrr, hor, hat, hrs,
    hru, het, hri, -, -, hup⟩ := hflds
  exact ⟨hid, hcr, hti, hst, hen, hca, hde, hlo, had, hrr, hor, hat, hrs,
    hru, het, hri, hup, hk2, hfind2⟩

/-- First upsert payload for the convergence witness. -/
def c2Input1 : EventInput :=
  { calendarId := "cal", uid := "u", title := "first", description := none,
    location := none, startAt := 10, endAt := 20, allDay := false,
    recurrenceRule := none, organizer := none, attendees := [],
    responseStatus := none, remoteUrl := none, etag := none, rawIcs := none }

/-- Second upsert payload for the convergence witness (same uid). -/
def c2Input2 : EventInput :=
  { calendarId := "cal", uid := "u", title := "second", description := none,
    location := none, startAt := 30, endAt := 40, allDay := false,
    recurrenceRule := none, organizer := none, attendees := [],
    responseStatus := none, remoteUrl := none, etag := none, rawIcs := none }

/-- The row created by the first witness upsert. -/
def c2Row1 : EventDocument :=
  { id := 0, accountId := "acc", calendarId := "cal", uid := "u",
    title := "first", description := none, location := none, startAt := 10,
    endAt := 20, allDay := false, recurrenceRule := none, organizer := none,
    attendees := [], responseStatus := none, remoteUrl := none, etag := none,
    rawIcs := none, createdAt := 0, updatedAt := 0 }

/-- The row left by the second witness upsert. -/
def c2Row2 : EventDocument :=
  { id := 0, accountId := "acc", calendarId := "cal", uid := "u",
    title := "second", description := none, location := none, startAt := 30,
    endAt := 40, allDay := false, recurrenceRule := none, organizer := none,
    attendees := [], responseStatus := none, remoteUrl := none, etag := none,
    rawIcs := none, createdAt := 0, updatedAt := 5 }

/-- Witness for `upsertByUid_idempotent_convergence` on an initially
empty store. -/
theorem upsertByUid_idempotent_convergence_witness :
    findOneByUid [c2Row2] "acc" c2Input1.uid = some c2Row2 :=
  (upsertByUid_idempotent_convergence [] "acc" c2Input1 c2Input2 0 5 0 1
    c2Row1 [c2Row1] c2Row2 [c2Row2]
    (by simp [EventIdsNodup]) (by decide) (by simp) rfl
    (by decide) (by decide)).2.2.2.2.2.2.2.2.2.2.2.2.2.2.2.2.2.2

/-! ## Accounts and OAuth2 credentials (src/types.ts, src/credentials.ts,
src/oauth/google.ts, src/oauth/outlook.ts) -/

/-- Supported calendar providers. -/
inductive ProviderKind
  | ical
  | google
  | icloud
  | outlook
  | caldav
deriving DecidableEq, Repr

/-- Authentication type for calendar accounts. -/
inductive AuthType
  | nones
  | password
  | oauth2
deriving DecidableEq, Repr

/-- Credentials for authentication (tagged union of the three variants). -/
inductive CalendarCredentials
  | nocreds
  | password (username pw : String)
  | oauth2 (accessToken refreshToken : String) (expiresAt : Timestamp)
deriving DecidableEq, Repr

/-- Calendar account configuration (`CalendarAccount` of src/types.ts;
the ISO timestamps are integers per the file-wide convention). -/
structure CalendarAccount where
  id : String
  userId : String
  provider : ProviderKind
  name : String
  url : Option String
  authType : AuthType
  credentials : CalendarCredentials
  enabled : Bool
  syncIntervalMs : Int
  lastSyncAt : Option Timestamp
  lastError : Option String
  createdAt : Timestamp
  updatedAt : Timestamp
deriving DecidableEq, Repr

/-- OAuth2 token-endpoint response (`TokenResponse`). -/
structure TokenResponse where
  accessToken : String
  refreshToken : String
  expiresIn : Int
  tokenType : String
deriving DecidableEq, Repr

/-- `CredentialRefreshConfig`: optional OAuth client settings. -/
structure CredentialRefreshConfig where
  googleClientId : Option String := none
  googleClientSecret : Option String := none
  outlookClientId : Option String := none
  outlookTenantId : Option String := none
deriving DecidableEq, Repr

/-- `isTokenExpired` (src/oauth/google.ts): true iff
`now >= expiresAt - bufferMinutes` (converted to ms); callers use the
default buffer of 5 minutes. -/
def isTokenExpired (expiresAt : Timestamp) (bufferMinutes : Int)
    (now : Timestamp) : Bool :=
  decide (now ≥ expiresAt - bufferMinutes * 60 * 1000)

/-- `isOutlookTokenExpired` (src/oauth/outlook.ts): identical check. -/
def isOutlookTokenExpired (expiresAt : Timestamp) (bufferMinutes : Int)
    (now : Timestamp) : Bool :=
  decide (now ≥ expiresAt - bufferMinutes * 60 * 1000)

/-- The built-in Outlook client id the refresher falls back to. -/
def DEFAULT_OUTLOOK_CALENDAR_CLIENT_ID : String :=
  "22f6cd67-c896-49b6-b68e-89d90035e0a7"

/-- Observable outcome of `ensureFreshCredentials`: the returned
credentials, whether a provider refresh-token grant was invoked, the
client id passed to it, and the credentials persisted through
`accountsRepo.updateCredentials` (if any). -/
structure RefreshOutcome where
  credentials : CalendarCredentials
  refreshCalled : Bool
  refreshClientId : Option String
  persisted : Option CalendarCredentials
deriving DecidableEq, Repr

/-- `ensureFreshCredentials` (src/credentials.ts).  Non-OAuth2
credentials are returned unchanged.  For Google: if the token is within
the 5-minute expiry buffer, require client id and secret (JS-truthy),
call the refresh grant (`refreshResponse` stands for that network call)
and persist + return the new pair with
`expiresAt = now + expiresIn * 1000`.  For Outlook: same, except a
missing client id falls back to the built-in default and no
configuration error is possible.  Other providers return unchanged. -/
def ensureFreshCredentials (account : CalendarAccount)
    (config : CredentialRefreshConfig) (now : Timestamp)
    (refreshResponse : Except String TokenResponse) :
    Except String RefreshOutcome :=
  match account.credentials with
  | CalendarCredentials.oauth2 _accessToken _refreshToken expiresAt =>
    if account.provider = ProviderKind.google then
      if !(isTokenExpired expiresAt 5 now) then
        Except.ok ⟨account.credentials, false, none, none⟩
      else if !(strPresent config.googleClientId) ||
          !(strPresent config.googleClientSecret) then
        Except.error "Google OAuth configuration missing for token refresh"
      else
        match refreshResponse with
        | Except.error m => Except.error m
        | Except.ok token =>
          let newCredentials := CalendarCredentials.oauth2 token.accessToken
            token.refreshToken (now + token.expiresIn * 1000)
          Except.ok ⟨newCredentials, true, config.googleClientId,
            some newCredentials⟩
    else if account.provider = ProviderKind.outlook then
      if !(isOutlookTokenExpired expiresAt 5 now) then
        Except.ok ⟨account.credentials, false, none, none⟩
      else
        let outlookClientId :=
          jsOr config.outlookClientId DEFAULT_OUTLOOK_CALENDAR_CLIENT_ID
        match refreshResponse with
        | Except.error m => Except.error m
        | Except.ok token =>
          let newCredentials := CalendarCredentials.oauth2 token.accessToken
            token.refreshToken (now + token.expiresIn * 1000)
          Except.ok ⟨newCredentials, true, some outlookClientId,
            some newCredentials⟩
    else Except.ok ⟨account.credentials, false, none, none⟩
  | creds => Except.ok ⟨creds, false, none, none⟩

/-- C4: non-OAuth2 accounts pass through unchanged with no refresh call;
a Google OAuth2 account (with client id/secret configured) and an
Outlook OAuth2 account refresh exactly when `now >= expiresAt - 5 min`,
persisting the new token pair with expiry `now + expiresIn * 1000`
through the accounts repository, and otherwise return unchanged. -/
theorem ensureFreshCredentials_refresh_policy :
    ∀ (account : CalendarAccount) (config : CredentialRefreshConfig)
      (now : Timestamp) (rr : Except String TokenResponse),
      ((∀ a r e, account.credentials ≠ CalendarCredentials.oauth2 a r e) →
        ensureFreshCredentials account config now rr =
          Except.ok ⟨account.credentials, false, none, none⟩) ∧
      (∀ a r e tok, account.credentials = CalendarCredentials.oauth2 a r e →
        account.provider = ProviderKind.google →
        strPresent config.googleClientId = true →
        strPresent config.googleClientSecret = true →
        rr = Except.ok tok →
        ((now ≥ e - 5 * 60 * 1000 →
          ensureFreshCredentials account config now rr =
            Except.ok ⟨CalendarCredentials.oauth2 tok.accessToken
                tok.refreshToken (now + tok.expiresIn * 1000), true,
              config.googleClientId,
              some (CalendarCredentials.oauth2 tok.accessToken
                tok.refreshToken (now + tok.expiresIn * 1000))⟩) ∧
         (now < e - 5 * 60 * 1000 →
          ensureFreshCredentials account config now rr =
            Except.ok ⟨account.credentials, false, none, none⟩))) ∧
      (∀ a r e tok, account.credentials = CalendarCredentials.oauth2 a r e →
        account.provider = ProviderKind.outlook →
        rr = Except.ok tok →
        ((now ≥ e - 5 * 60 * 1000 →
          ensureFreshCredentials account config now rr =
            Except.ok ⟨CalendarCredentials.oauth2 tok.accessToken
                tok.refreshToken (now + tok.expiresIn * 1000), true,
              some (jsOr config.outlookClientId
                DEFAULT_OUTLOOK_CALENDAR_CLIENT_ID),
              some (CalendarCredentials.oauth2 tok.accessToken
                tok.refreshToken (now + tok.expiresIn * 1000))⟩) ∧
         (now < e - 5 * 60 * 1000 →
          ensureFreshCredentials account config now rr =
            Except.ok ⟨account.credentials, false, none, none⟩))) := by
  intro account config now rr
  obtain ⟨aid, auser, aprov, aname, aurl, aauth, acreds, aen, asi, alsa, ale,
    aca, aua⟩ := account
  refine ⟨?_, ?_, ?_⟩
  · intro hne
    cases acreds with
    | oauth2 a r e => exact absurd rfl (hne a r e)
    | nocreds => rfl
    | password u p => rfl
  · intro a r e tok hc hp hcid hcs hrr
    dsimp only at hc hp
    subst hc
    subst hp
    constructor
    · intro hexp
      have he : isTokenExpired e 5 now = true := by
        simp only [isTokenExpired, decide_eq_true_eq]
        exact hexp
      subst hrr
      simp [ensureFreshCredentials, he, hcid, hcs]
    · intro hlt
      have he : isTokenExpired e 5 now = false := by
        simp only [isTokenExpired, decide_eq_false_iff_not]
        exact not_le.mpr hlt
      simp [ensureFreshCredentials, he]
  · intro a r e tok hc hp hrr
    dsimp only at hc hp
    subst hc
    subst hp
    constructor
    · intro hexp
      have he : isOutlookTokenExpired e 5 now = true := by
        simp only [isOutlookTokenExpired, decide_eq_true_eq]
        exact hexp
      subst hrr
      simp [ensureFreshCredentials, he]
    · intro hlt
      have he : isOutlookTokenExpired e 5 now = false := by
        simp only [isOutlookTokenExpired, decide_eq_false_iff_not]
        exact not_le.mpr hlt
      simp [ensureFreshCredentials, he]

/-- A Google OAuth2 account whose token expires 2 minutes after `now = 0`. -/
def c4Account : CalendarAccount :=
  { id := "acc-g", userId := "user", provider := ProviderKind.google,
    name := "G", url := none, authType := AuthType.oauth2,
    credentials := CalendarCredentials.oauth2 "at" "rt" 120000,
    enabled := true, syncIntervalMs := 600000, lastSyncAt := none,
    lastError := none, createdAt := 0, updatedAt := 0 }

/-- A complete Google client configuration. -/
def c4Config : CredentialRefreshConfig :=
  { googleClientId := some "gid", googleClientSecret := some "gsecret" }

/-- A refresh-grant response. -/
def c4Token : TokenResponse :=
  { accessToken := "at2", refreshToken := "rt2", expiresIn := 3600,
    tokenType := "Bearer" }

/-- Witness for `ensureFreshCredentials_refresh_policy`: expiry 2 minutes
ahead (inside the 5-minute buffer) triggers the refresh and persists the
new pair. -/
theorem ensureFreshCredentials_refresh_policy_witness :
    ensureFreshCredentials c4Account c4Config 0 (Except.ok c4Token) =
      Except.ok ⟨CalendarCredentials.oauth2 "at2" "rt2" 3600000, true,
        some "gid", some (CalendarCredentials.oauth2 "at2" "rt2" 3600000)⟩ :=
  ((ensureFreshCredentials_refresh_policy c4Account c4Config 0
      (Except.ok c4Token)).2.1 "at" "rt" 120000 c4Token rfl rfl (by decide)
      (by decide) rfl).1 (by decide)

theorem jsOr_eq_default {a : Option String} {b : String}
    (h : strPresent a = false) : jsOr a b = b := by
  cases a with
  | none => rfl
  | some s =>
    simp only [strPresent] at h
    have hs : s.isEmpty = true := by simpa using h
    simp [jsOr, hs]

/-- C9: a Google OAuth2 account inside the expiry buffer fails with a
configuration error when client id or secret is missing, while an
Outlook OAuth2 account in the same situation does not fail for a
missing client id: it refreshes using the built-in default client id. -/
theorem ensureFreshCredentials_missing_config :
    ∀ (account : CalendarAccount) (config : CredentialRefreshConfig)
      (now : Timestamp) (rr : Except String TokenResponse),
      (∀ a r e, account.credentials = CalendarCredentials.oauth2 a r e →
        account.provider = ProviderKind.google →
        now ≥ e - 5 * 60 * 1000 →
        (strPresent config.googleClientId = false ∨
         strPresent config.googleClientSecret = false) →
        ensureFreshCredentials account config now rr =
          Except.error "Google OAuth configuration missing for token refresh") ∧
      (∀ a r e tok, account.credentials = CalendarCredentials.oauth2 a r e →
        account.provider = ProviderKind.outlook →
        now ≥ e - 5 * 60 * 1000 →
        strPresent config.outlookClientId = false →
        rr = Except.ok tok →
        ensureFreshCredentials account config now rr =
          Except.ok ⟨CalendarCredentials.oauth2 tok.accessToken
              tok.refreshToken (now + tok.expiresIn * 1000), true,
            some DEFAULT_OUTLOOK_CALENDAR_CLIENT_ID,
            some (CalendarCredentials.oauth2 tok.accessToken tok.refreshToken
              (now + tok.expiresIn * 1000))⟩) := by
  intro account config now rr
  obtain ⟨aid, auser, aprov, aname, aurl, aauth, acreds, aen, asi, alsa, ale,
    aca, aua⟩ := account
  constructor
  · intro a r e hc hp hexp hmiss
    dsimp only at hc hp
    subst hc
    subst hp
    have he : isTokenExpired e 5 now = true := by
      simp only [isTokenExpired, decide_eq_true_eq]
      exact hexp
    rcases hmiss with hm | hm <;> simp [ensureFreshCredentials, he, hm]
  · intro a r e tok hc hp hexp hm hrr
    dsimp only at hc hp
    subst hc
    subst hp
    subst hrr
    have he : isOutlookTokenExpired e 5 now = true := by
      simp only [isOutlookTokenExpired, decide_eq_true_eq]
      exact hexp
    simp [ensureFreshCredentials, he, jsOr_eq_default hm]

/-- A Google OAuth2 account with an expiring token, for the missing
configuration witness. -/
def c9GoogleAccount : CalendarAccount :=
  { id := "acc-g2", userId := "user", provider := ProviderKind.google,
    name := "G", url := none, authType := AuthType.oauth2,
    credentials := CalendarCredentials.oauth2 "at" "rt" 120000,
    enabled := true, syncIntervalMs := 600000, lastSyncAt := none,
    lastError := none, createdAt := 0, updatedAt := 0 }

/-- The same situation for an Outlook account. -/
def c9OutlookAccount : CalendarAccount :=
  { id := "acc-o", userId := "user", provider := ProviderKind.outlook,
    name := "O", url := none, authType := AuthType.oauth2,
    credentials := CalendarCredentials.oauth2 "at" "rt" 120000,
    enabled := true, syncIntervalMs := 600000, lastSyncAt := none,
    lastError := none, createdAt := 0, updatedAt := 0 }

/-- Witness for `ensureFreshCredentials_missing_config`: with an empty
configuration, Google errors out while Outlook refreshes with the
built-in default client id. -/
theorem ensureFreshCredentials_missing_config_witness :
    ensureFreshCredentials c9GoogleAccount {} 0 (Except.ok c4Token) =
      Except.error "Google OAuth configuration missing for token refresh" ∧
    ensureFreshCredentials c9OutlookAccount {} 0 (Except.ok c4Token) =
      Except.ok ⟨CalendarCredentials.oauth2 "at2" "rt2" 3600000, true,
        some DEFAULT_OUTLOOK_CALENDAR_CLIENT_ID,
        some (CalendarCredentials.oauth2 "at2" "rt2" 3600000)⟩ :=
  ⟨(ensureFreshCredentials_missing_config c9GoogleAccount {} 0
      (Except.ok c4Token)).1 "at" "rt" 120000 rfl rfl (by decide)
      (Or.inl (by decide)),
   (ensureFreshCredentials_missing_config c9OutlookAccount {} 0
      (Except.ok c4Token)).2 "at" "rt" 120000 c4Token rfl rfl (by decide)
      (by decide) rfl⟩

/-! ## Sync state, provider results and the orchestrator
(src/db/syncStateRepository.ts, src/providers/types.ts, src/sync.ts) -/

/-- `SyncStateDocument`: one cursor row per account (the storage key
`sync_${accountId}` is determined by `accountId`, so the row is
identified by it). -/
structure SyncStateDocument where
  accountId : String
  syncToken : Option String
  deltaLink : Option String
  lastSyncAt : Timestamp
deriving DecidableEq, Repr

/-- `SyncStateRepository.get`: `findOne` by `accountId`. -/
def SyncStateRepository.get (states : List SyncStateDocument)
    (accountId : String) : Option SyncStateDocument :=
  states.find? (fun s => s.accountId == accountId)

/-- `SyncStateRepository.upsert`: rewrite the existing row's cursor pair
and `lastSyncAt`, or create the row. -/
def SyncStateRepository.upsert (states : List SyncStateDocument)
    (accountId : String) (syncToken deltaLink : Option String)
    (now : Timestamp) : List SyncStateDocument :=
  match states.find? (fun s => s.accountId == accountId) with
  | some _ => states.map (fun s => if s.accountId == accountId then
      { s with
        syncToken := syncToken,
        deltaLink := deltaLink,
        lastSyncAt := now }
      else s)
  | none =>
    states ++
      [{ accountId := accountId, syncToken := syncToken,
         deltaLink := deltaLink, lastSyncAt := now }]

/-- The accounts repository's get-then-put update of one account
document: rewrite the document stored under `id`, leave the others
(no-op when absent — the map then matches nothing). -/
def updateAccountById (accounts : List CalendarAccount) (id : String)
    (g : CalendarAccount → CalendarAccount) : List CalendarAccount :=
  accounts.map (fun a => if a.id == id then g a else a)

/-- `AccountsRepository.updateSyncStatus`: set `lastSyncAt = now` and
`lastError = error` on the account document. -/
def AccountsRepository.updateSyncStatus (accounts : List CalendarAccount)
    (id : String) (err : Option String) (now : Timestamp) :
    List CalendarAccount :=
  updateAccountById accounts id (fun a =>
    { a with lastSyncAt := some now, lastError := err, updatedAt := now })

/-- `AccountsRepository.updateCredentials`: store the new credential
payload for the account (held in secret storage in the source) and touch
`updatedAt`. -/
def AccountsRepository.updateCredentials (accounts : List CalendarAccount)
    (id : String) (credentials : CalendarCredentials) (now : Timestamp) :
    List CalendarAccount :=
  updateAccountById accounts id (fun a =>
    { a with credentials := credentials, updatedAt := now })

/-- An event as returned by a provider's `syncEvents` (the
`CalendarEvent` objects built by the adapters; their `id`,
`createdAt`, `updatedAt` are ignored by the orchestrator's upsert). -/
structure SyncEvent where
  calendarId : String
  uid : String
  title : String
  description : Option String
  location : Option String
  startAt : Timestamp
  endAt : Timestamp
  allDay : Bool
  recurrenceRule : Option String
  organizer : Option String
  attendees : List String
  remoteUrl : Option String
  etag : Option String
  rawIcs : Option String
deriving DecidableEq, Repr

/-- `SyncResult` of the provider contract (`deletedUids` is `undefined`
exactly when the list is empty — `deletedUids?.length` guards its use). -/
structure SyncResult where
  events : List SyncEvent
  deletedUids : List String := []
  syncToken : Option String := none
  deltaLink : Option String := none
  fullSync : Bool
deriving DecidableEq, Repr

/-- The upsert payload the orchestrator builds from a provider event
(src/sync.ts): every field is copied except `responseStatus`, which the
object literal omits, so the repository stores `null` for it. -/
def syncEventToInput (e : SyncEvent) : EventInput :=
  { calendarId := e.calendarId, uid := e.uid, title := e.title,
    description := e.description, location := e.location,
    startAt := e.startAt, endAt := e.endAt, allDay := e.allDay,
    recurrenceRule := e.recurrenceRule, organizer := e.organizer,
    attendees := e.attendees, responseStatus := none,
    remoteUrl := e.remoteUrl, etag := e.etag, rawIcs := e.rawIcs }

/-- The user's persistent store, as one value: the `accounts`, `events`
and `syncState` collections plus the fresh-id counter. -/
structure SyncStore where
  accounts : List CalendarAccount
  events : List EventDocument
  syncStates : List SyncStateDocument
  nextId : Nat
deriving Repr

/-- The orchestrator's upsert loop over `syncResult.events`. -/
def upsertEventsLoop (events : List EventDocument) (nextId : Nat)
    (accountId : String) (now : Timestamp) :
    List SyncEvent → List EventDocument × Nat
  | [] => (events, nextId)
  | e :: rest =>
    let r := EventsRepository.upsertByUid events accountId
      (syncEventToInput e) now nextId
    upsertEventsLoop r.2 (nextId + 1) accountId now rest

/-- The orchestrator's deletion loop over `syncResult.deletedUids`:
look up the cached event by `(accountId, uid)` and delete it by id. -/
def deleteEventsLoop (events : List EventDocument) (accountId : String) :
    List String → List EventDocument
  | [] => events
  | uid :: rest =>
    match findOneByUid events accountId uid with
    | some existing =>
      deleteEventsLoop (events.filter (fun d => !(d.id == existing.id)))
        accountId rest
    | none => deleteEventsLoop events accountId rest

/-- The world one sync pass runs against: the clock, the refresh
configuration, the provider's network responses (`fetch` is the
provider's `syncEvents`, a function of the credentials and the cursor),
and injected storage failures for the upsert and cursor-persist stages
(`none` = the stage's storage operations succeed). -/
structure SyncEnv where
  now : Timestamp
  config : CredentialRefreshConfig
  refreshResponse : Except String TokenResponse
  fetch : CalendarCredentials → Option String → Except String SyncResult
  upsertFail : Option String := none
  cursorFail : Option String := none

/-- The `try` block of `syncAccountEvents`: refresh credentials (and
persist them), read the cursor, fetch the provider delta, upsert every
returned event, delete every tombstoned uid, persist the new cursor.
Returns the store as mutated so far plus `some message` if a stage threw
(mutations already applied stay applied, as in the source, where the
storage writes have already happened when a later stage throws). -/
def syncBody (account : CalendarAccount) (store : SyncStore)
    (env : SyncEnv) : SyncStore × Option String :=
  match ensureFreshCredentials account env.config env.now env.refreshResponse with
  | Except.error m => (store, some m)
  | Except.ok outcome =>
    let store1 : SyncStore :=
      { store with accounts :=
          match outcome.persisted with
          | some c => AccountsRepository.updateCredentials store.accounts
              account.id c env.now
          | none => store.accounts }
    let cursor := (SyncStateRepository.get store1.syncStates account.id).bind
      (fun s => s.syncToken)
    match env.fetch outcome.credentials cursor with
    | Except.error m => (store1, some m)
    | Except.ok syncResult =>
      match env.upsertFail with
      | some m => (store1, some m)
      | none =>
        let up := upsertEventsLoop store1.events store1.nextId account.id
          env.now syncResult.events
        let store2 : SyncStore := { store1 with events := up.1, nextId := up.2 }
        let store3 : SyncStore :=
          { store2 with
            events :=
              if syncResult.deletedUids.isEmpty then store2.events
              else deleteEventsLoop store2.events account.id
                syncResult.deletedUids }
        match env.cursorFail with
        | some m => (store3, some m)
        | none =>
          let store4 : SyncStore :=
            { store3 with
              syncStates :=
                SyncStateRepository.upsert store3.syncStates account.id
                  syncResult.syncToken syncResult.deltaLink env.now }
          (store4, none)

/-- `syncAccountEvents` (src/sync.ts): run the body; on success clear
the account's error flag, on any failure record the error message —
either way the pass returns normally. -/
def syncAccountEvents (account : CalendarAccount) (store : SyncStore)
    (env : SyncEnv) : SyncStore :=
  match syncBody account store env with
  | (s, none) =>
    { s with
      accounts :=
        AccountsRepository.updateSyncStatus s.accounts account.id none
          env.now }
  | (s, some m) =>
    { s with
      accounts :=
        AccountsRepository.updateSyncStatus s.accounts account.id (some m)
          env.now }

/-- `AccountsRepository.list` (src/db/accountsRepository.ts): a
`storage.find` over the accounts collection sorted by name ascending
with the default page `limit = 50, offset = 0` — callers that pass no
options (the sync pass among them) see at most the first 50 name-sorted
accounts. -/
def AccountsRepository.list (accounts : List CalendarAccount) :
    List CalendarAccount :=
  (accounts.insertionSort (fun a b => a.name ≤ b.name)).take 50

/-- `syncAllAccountsWithContext` (src/sync.ts): iterate the
`accountsRepo.list()` snapshot of the user's accounts sequentially (at
most the repository's default page of 50 name-sorted accounts),
skipping disabled ones; each account gets its own environment (its own
provider responses). -/
def syncAllAccountsWithContext (store : SyncStore)
    (env : CalendarAccount → SyncEnv) : SyncStore :=
  (AccountsRepository.list store.accounts).foldl
    (fun st a => if a.enabled then syncAccountEvents a st (env a) else st)
    store

/-- `storage.findOne` on the accounts collection by id. -/
def lookupAccount (store : SyncStore) (id : String) : Option CalendarAccount :=
  store.accounts.find? (fun a => a.id == id)

/-- All row ids of the event store lie below the fresh-id counter. -/
def IdsBelow (events : List EventDocument) (n : Nat) : Prop :=
  ∀ d ∈ events, d.id < n

/-- Well-formedness of the event store: distinct row ids, at most one
row per `(accountId, uid)` key, and ids below the counter. -/
def StoreWf (s : SyncStore) : Prop :=
  EventIdsNodup s.events ∧ (∀ aid uid, keyCount s.events aid uid ≤ 1) ∧
  IdsBelow s.events s.nextId

/-! ### Store invariants through the orchestrator's loops -/

theorem mem_putEvent {events : List EventDocument} {tid : Nat}
    {doc d : EventDocument} (h : d ∈ putEvent events tid doc) :
    d = doc ∨ d ∈ events := by
  unfold putEvent at h
  split at h
  · rcases List.mem_map.mp h with ⟨x, hx, hfx⟩
    by_cases hxid : (x.id == tid) = true
    · rw [if_pos hxid] at hfx
      exact Or.inl hfx.symm
    · rw [if_neg hxid] at hfx
      exact Or.inr (hfx ▸ hx)
  · rcases List.mem_append.mp h with hx | hx
    · exact Or.inr hx
    · exact Or.inl (List.mem_singleton.mp hx)

/-- Replacing a row by another that equally fails `p` keeps `countP p`. -/
theorem countP_putEvent_of_both_false (p : EventDocument → Bool)
    {events : List EventDocument} {existing doc : EventDocument}
    (hn : EventIdsNodup events) (hmem : existing ∈ events)
    (_hid : doc.id = existing.id) (hpe : p existing = false)
    (hpd : p doc = false) :
    (putEvent events existing.id doc).countP p = events.countP p := by
  unfold putEvent
  split
  · rw [List.countP_map]
    refine List.countP_congr ?_
    intro x hx
    show p (if (x.id == existing.id) = true then doc else x) = true ↔ p x = true
    by_cases hxid : (x.id == existing.id) = true
    · have hxe : x = existing :=
        List.inj_on_of_nodup_map hn hx hmem (beq_iff_eq.mp hxid)
    

      rw [if_pos hxid, hpd, hxe, hpe]
    · rw [if_neg hxid]
  · rw [List.countP_append]
    simp [hpd]

/-- Two distinct members force length at least two. -/
theorem two_le_length_of_mem_ne {α : Type} {L : List α} {a b : α}
    (ha : a ∈ L) (hb : b ∈ L) (hab : a ≠ b) : 2 ≤ L.length := by
  match L with
  | [] => cases ha
  | [x] =>
    rw [List.mem_singleton] at ha hb
    exact absurd (ha.trans hb.symm) hab
  | x :: y :: t => simp [List.length]

/-- Removing the unique `p`-match by id empties the `p`-count. -/
theorem countP_zero_after_remove (p : EventDocument → Bool)
    {events : List EventDocument} {found : EventDocument}
    (_hn : EventIdsNodup events) (hc : events.countP p ≤ 1)
    (hfound : events.find? p = some found) :
    (events.filter (fun d => !(d.id == found.id))).countP p = 0 := by
  rw [List.countP_eq_zero]
  intro r hr
  rcases List.mem_filter.mp hr with ⟨hrl, hrid⟩
  intro hpr
  have hfm : found ∈ events := List.mem_of_find?_eq_some hfound
  have hpf : p found = true := List.find?_some hfound
  have hrne : r ≠ found := by
    intro he
    rw [he] at hrid
    simp at hrid
  have h2 : 2 ≤ (events.filter p).length :=
    two_le_length_of_mem_ne (List.mem_filter.mpr ⟨hrl, hpr⟩)
      (List.mem_filter.mpr ⟨hfm, hpf⟩) hrne
  rw [← List.countP_eq_length_filter] at h2
  omega

/-- Removing rows under an id whose row fails `p` keeps `countP p`
bounds (we only need the inequality both ways via sublist). -/
theorem countP_filter_le (p q : EventDocument → Bool)
    (events : List EventDocument) :
    (events.filter q).countP p ≤ events.countP p :=
  (List.filter_sublist events).countP_le p

/-- Deleting by the id of a row that fails `p` keeps `countP p` exact. -/
theorem countP_filter_ne_id (p : EventDocument → Bool)
    {events : List EventDocument} {found : EventDocument}
    (hn : EventIdsNodup events) (hfm : found ∈ events)
    (hpf : p found = false) :
    (events.filter (fun d => !(d.id == found.id))).countP p =
      events.countP p := by
  induction events with
  | nil => rfl
  | cons d rest ih =>
    simp only [EventIdsNodup, List.map_cons, List.nodup_cons] at hn
    rcases List.mem_cons.mp hfm with hfd | hfr
    · subst hfd
      rw [List.filter_cons_of_neg (by simp)]
      have : rest.filter (fun d => !(d.id == found.id)) = rest := by
        rw [List.filter_eq_self]
        intro x hx
        simp only [Bool.not_eq_true']
        exact beq_eq_false_iff_ne.mpr (not_id_mem_of_not_mem_ids hn.1 x hx)
      rw [this, List.countP_cons_of_neg _ _ (by simp [hpf])]
    · have hdne : (d.id == found.id) = false := by
        refine beq_eq_false_iff_ne.mpr (fun he => hn.1 ?_)
        exact he ▸ List.mem_map_of_mem (fun x => x.id) hfr
      rw [List.filter_cons_of_pos (by simp [hdne])]
      by_cases hpd : p d = true
      · rw [List.countP_cons_of_pos _ _ hpd, List.countP_cons_of_pos _ _ hpd,
          ih hn.2 hfr]
      · rw [List.countP_cons_of_neg _ _ hpd, List.countP_cons_of_neg _ _ hpd,
          ih hn.2 hfr]

theorem eventKeyMatches_eq_true_iff (a u : String) (d : EventDocument) :
    eventKeyMatches a u d = true ↔ (d.accountId = a ∧ d.uid = u) := by
  simp [eventKeyMatches]

/-- `upsertByUid` keeps row ids distinct. -/
theorem upsertByUid_nodup {events : List EventDocument}
    (hn : EventIdsNodup events) (accountId : String) (e : EventInput)
    (now : Timestamp) (i : Nat) :
    EventIdsNodup (EventsRepository.upsertByUid events accountId e now i).2 := by
  cases hfind : findOneByUid events accountId e.uid with
  | some existing =>
    simp only [EventsRepository.upsertByUid, hfind]
    exact eventIdsNodup_putEvent_replace hn rfl
  | none =>
    simp only [EventsRepository.upsertByUid, hfind]
    exact eventIdsNodup_putEvent_replace hn rfl

/-- `upsertByUid` with the counter as fresh id keeps ids below `n+1`. -/
theorem upsertByUid_idsBelow {events : List EventDocument} {n : Nat}
    (hb : IdsBelow events n) (accountId : String) (e : EventInput)
    (now : Timestamp) :
    IdsBelow (EventsRepository.upsertByUid events accountId e now n).2
      (n + 1) := by
  intro d hd
  cases hfind : findOneByUid events accountId e.uid with
  | some existing =>
    simp only [EventsRepository.upsertByUid, hfind] at hd
    rcases mem_putEvent hd with rfl | hdm
    · exact Nat.lt_succ_of_lt (hb existing (List.mem_of_find?_eq_some hfind))
    · exact Nat.lt_succ_of_lt (hb d hdm)
  | none =>
    simp only [EventsRepository.upsertByUid, hfind] at hd
    rcases mem_putEvent hd with rfl | hdm
    · exact Nat.lt_succ_self n
    · exact Nat.lt_succ_of_lt (hb d hdm)

/-- `upsertByUid` leaves the count of every other key unchanged. -/
theorem keyCount_upsert_other {events : List EventDocument}
    (hn : EventIdsNodup events) {accountId : String} {e : EventInput}
    {now : Timestamp} {i : Nat} {a u : String}
    (hf : ∀ d ∈ events, d.id ≠ i)
    (hne : ¬(a = accountId ∧ u = e.uid)) :
    keyCount (EventsRepository.upsertByUid events accountId e now i).2 a u =
      keyCount events a u := by
  cases hfind : findOneByUid events accountId e.uid with
  | some existing =>
    have h1 := List.find?_some hfind
    simp only [Bool.and_eq_true, beq_iff_eq] at h1
    simp only [EventsRepository.upsertByUid, hfind, keyCount_eq_countP]
    refine countP_putEvent_of_both_false _ hn
      (List.mem_of_find?_eq_some hfind) rfl ?_ ?_
    · cases hx : eventKeyMatches a u existing
      · rfl
      · exfalso
        rcases (eventKeyMatches_eq_true_iff a u existing).mp hx with ⟨hxa, hxu⟩
        exact hne ⟨hxa.symm.trans h1.1, hxu.symm.trans h1.2⟩
    · cases hx : eventKeyMatches a u
        { id := existing.id, accountId := accountId,
          calendarId := e.calendarId, uid := e.uid, title := e.title,
          description := e.description, location := e.location,
          startAt := e.startAt, endAt := e.endAt, allDay := e.allDay,
          recurrenceRule := e.recurrenceRule, organizer := e.organizer,
          attendees := e.attendees, responseStatus := e.responseStatus,
          remoteUrl := e.remoteUrl, etag := e.etag, rawIcs := e.rawIcs,
          createdAt := existing.createdAt, updatedAt := now }
      · rfl
      · exfalso
        rcases (eventKeyMatches_eq_true_iff a u _).mp hx with ⟨hxa, hxu⟩
        exact hne ⟨hxa.symm, hxu.symm⟩
  | none =>
    simp only [EventsRepository.upsertByUid, hfind, keyCount_eq_countP]
    rw [putEvent_append_of_fresh events _ i hf, List.countP_append]
    have h0 : List.countP (eventKeyMatches a u)
        [({ id := i, accountId := accountId, calendarId := e.calendarId,
            uid := e.uid, title := e.title, description := e.description,
            location := e.location, startAt := e.startAt, endAt := e.endAt,
            allDay := e.allDay, recurrenceRule := e.recurrenceRule,
            organizer := e.organizer, attendees := e.attendees,
            responseStatus := e.responseStatus, remoteUrl := e.remoteUrl,
            etag := e.etag, rawIcs := e.rawIcs, createdAt := now,
            updatedAt := now } : EventDocument)] = 0 := by
      rw [List.countP_eq_zero]
      intro x hx
      rw [List.mem_singleton] at hx
      subst hx
      intro hc
      rcases (eventKeyMatches_eq_true_iff a u _).mp hc with ⟨hxa, hxu⟩
      exact hne ⟨hxa.symm, hxu.symm⟩
    rw [h0]
    exact Nat.add_zero _

/-- `upsertByUid` keeps every key's row count at most one. -/
theorem upsertByUid_keyCounts {events : List EventDocument}
    (hn : EventIdsNodup events)
    (hk : ∀ a u, keyCount events a u ≤ 1) {n : Nat}
    (hb : IdsBelow events n) (accountId : String) (e : EventInput)
    (now : Timestamp) :
    ∀ a u,
      keyCount (EventsRepository.upsertByUid events accountId e now n).2 a u
        ≤ 1 := by
  intro a u
  by_cases hku : a = accountId ∧ u = e.uid
  · obtain ⟨rfl, rfl⟩ := hku
    exact le_of_eq (upsertByUid_establishes events a e now n hn (hk _ _)
      (fun d hd => Nat.ne_of_lt (hb d hd))).2.1
  · rw [keyCount_upsert_other hn (fun d hd => Nat.ne_of_lt (hb d hd)) hku]
    exact hk a u

/-- The upsert loop preserves the event-store invariants, with the
counter advanced to the loop's final value. -/
theorem upsertEventsLoop_wf (accountId : String) (now : Timestamp) :
    ∀ (evs : List SyncEvent) (events : List EventDocument) (n : Nat),
      EventIdsNodup events → (∀ a u, keyCount events a u ≤ 1) →
      IdsBelow events n →
      EventIdsNodup (upsertEventsLoop events n accountId now evs).1 ∧
      (∀ a u,
        keyCount (upsertEventsLoop events n accountId now evs).1 a u ≤ 1) ∧
      IdsBelow (upsertEventsLoop events n accountId now evs).1
        (upsertEventsLoop events n accountId now evs).2 := by
  intro evs
  induction evs with
  | nil => intro events n hn hk hb; exact ⟨hn, hk, hb⟩
  | cons e rest ih =>
    intro events n hn hk hb
    simp only [upsertEventsLoop]
    exact ih _ _ (upsertByUid_nodup hn accountId _ now n)
      (upsertByUid_keyCounts hn hk hb accountId _ now)
      (upsertByUid_idsBelow hb accountId _ now)

/-- A key already holding exactly one row still holds exactly one after
the upsert loop. -/
theorem upsertEventsLoop_keyCount_keep (accountId : String) (now : Timestamp)
    (u : String) :
    ∀ (evs : List SyncEvent) (events : List EventDocument) (n : Nat),
      EventIdsNodup events → (∀ a u', keyCount events a u' ≤ 1) →
      IdsBelow events n →
      keyCount events accountId u = 1 →
      keyCount (upsertEventsLoop events n accountId now evs).1 accountId u
        = 1 := by
  intro evs
  induction evs with
  | nil => intro events n _ _ _ h1; exact h1
  | cons e rest ih =>
    intro events n hn hk hb h1
    simp only [upsertEventsLoop]
    have hfresh : ∀ d ∈ events, d.id ≠ n := fun d hd => Nat.ne_of_lt (hb d hd)
    by_cases hu : u = e.uid
    · subst hu
      refine ih _ _ (upsertByUid_nodup hn accountId _ now n)
        (upsertByUid_keyCounts hn hk hb accountId _ now)
        (upsertByUid_idsBelow hb accountId _ now) ?_
      exact (upsertByUid_establishes events accountId (syncEventToInput e)
        now n hn (hk _ _) hfresh).2.1
    · refine ih _ _ (upsertByUid_nodup hn accountId _ now n)
        (upsertByUid_keyCounts hn hk hb accountId _ now)
        (upsertByUid_idsBelow hb accountId _ now) ?_
      rw [keyCount_upsert_other hn hfresh (fun hc => hu hc.2)]
      exact h1

/-- Each event the upsert loop processes ends with exactly one cached
row under its key. -/
theorem upsertEventsLoop_keyCount_of_mem (accountId : String)
    (now : Timestamp) (u : String) :
    ∀ (evs : List SyncEvent) (events : List EventDocument) (n : Nat),
      EventIdsNodup events → (∀ a u', keyCount events a u' ≤ 1) →
      IdsBelow events n →
      (∃ e ∈ evs, e.uid = u) →
      keyCount (upsertEventsLoop events n accountId now evs).1 accountId u
        = 1 := by
  intro evs
  induction evs with
  | nil => intro events n _ _ _ hex; rcases hex with ⟨e, he, -⟩; cases he
  | cons e rest ih =>
    intro events n hn hk hb hex
    have hfresh : ∀ d ∈ events, d.id ≠ n := fun d hd => Nat.ne_of_lt (hb d hd)
    by_cases hu : e.uid = u
    · subst hu
      simp only [upsertEventsLoop]
      exact upsertEventsLoop_keyCount_keep accountId now e.uid rest _ _
        (upsertByUid_nodup hn accountId _ now n)
        (upsertByUid_keyCounts hn hk hb accountId _ now)
        (upsertByUid_idsBelow hb accountId _ now)
        ((upsertByUid_establishes events accountId (syncEventToInput e)
          now n hn (hk _ _) hfresh).2.1)
    · rcases hex with ⟨e', he', heu⟩
      rcases List.mem_cons.mp he' with rfl | he'r
      · exact absurd heu hu
      · simp only [upsertEventsLoop]
        exact ih _ _ (upsertByUid_nodup hn accountId _ now n)
          (upsertByUid_keyCounts hn hk hb accountId _ now)
          (upsertByUid_idsBelow hb accountId _ now) ⟨e', he'r, heu⟩

/-- The upsert loop does not touch other accounts' keys. -/
theorem upsertEventsLoop_other_account (accountId : String) (now : Timestamp)
    {b u : String} (hba : b ≠ accountId) :
    ∀ (evs : List SyncEvent) (events : List EventDocument) (n : Nat),
      EventIdsNodup events → (∀ a u', keyCount events a u' ≤ 1) →
      IdsBelow events n →
      keyCount (upsertEventsLoop events n accountId now evs).1 b u =
        keyCount events b u := by
  intro evs
  induction evs with
  | nil => intro events n _ _ _; rfl
  | cons e rest ih =>
    intro events n hn hk hb
    have hfresh : ∀ d ∈ events, d.id ≠ n := fun d hd => Nat.ne_of_lt (hb d hd)
    simp only [upsertEventsLoop]
    rw [ih _ _ (upsertByUid_nodup hn accountId _ now n)
      (upsertByUid_keyCounts hn hk hb accountId _ now)
      (upsertByUid_idsBelow hb accountId _ now)]
    exact keyCount_upsert_other hn hfresh (fun hc => hba hc.1)

/-- Members of the deletion loop's result come from the input store. -/
theorem mem_deleteEventsLoop (accountId : String) :
    ∀ (uids : List String) (events : List EventDocument)
      (d : EventDocument), d ∈ deleteEventsLoop events accountId uids →
      d ∈ events := by
  intro uids
  induction uids with
  | nil => intro events d hd; exact hd
  | cons uid rest ih =>
    intro events d hd
    simp only [deleteEventsLoop] at hd
    cases hfind : findOneByUid events accountId uid with
    | some existing =>
      rw [hfind] at hd
      exact List.mem_of_mem_filter (ih _ d hd)
    | none =>
      rw [hfind] at hd
      exact ih _ d hd

/-- The deletion loop keeps row ids distinct. -/
theorem deleteEventsLoop_nodup (accountId : String) :
    ∀ (uids : List String) (events : List EventDocument),
      EventIdsNodup events →
      EventIdsNodup (deleteEventsLoop events accountId uids) := by
  intro uids
  induction uids with
  | nil => intro events hn; exact hn
  | cons uid rest ih =>
    intro events hn
    simp only [deleteEventsLoop]
    cases hfind : findOneByUid events accountId uid with
    | some existing =>
      refine ih _ ?_
      exact List.Nodup.sublist (List.Sublist.map _ (List.filter_sublist _)) hn
    | none => exact ih _ hn

/-- The deletion loop never increases any key's row count. -/
theorem deleteEventsLoop_countP_le (accountId : String)
    (p : EventDocument → Bool) :
    ∀ (uids : List String) (events : List EventDocument),
      (deleteEventsLoop events accountId uids).countP p ≤
        events.countP p := by
  intro uids
  induction uids with
  | nil => intro events; exact Nat.le_refl _
  | cons uid rest ih =>
    intro events
    simp only [deleteEventsLoop]
    cases hfind : findOneByUid events accountId uid with
    | some existing =>
      exact (ih _).trans (countP_filter_le _ _ _)
    | none => exact ih _

/-- The deletion loop keeps ids below the counter. -/
theorem deleteEventsLoop_idsBelow (accountId : String)
    (uids : List String) {events : List EventDocument} {n : Nat}
    (hb : IdsBelow events n) :
    IdsBelow (deleteEventsLoop events accountId uids) n :=
  fun d hd => hb d (mem_deleteEventsLoop accountId uids events d hd)

/-- The deletion loop does not touch other accounts' keys. -/
theorem deleteEventsLoop_other_account (accountId : String)
    {b u : String} (hba : b ≠ accountId) :
    ∀ (uids : List String) (events : List EventDocument),
      EventIdsNodup events →
      keyCount (deleteEventsLoop events accountId uids) b u =
        keyCount events b u := by
  intro uids
  induction uids with
  | nil => intro events _; rfl
  | cons uid rest ih =>
    intro events hn
    simp only [deleteEventsLoop]
    cases hfind : findOneByUid events accountId uid with
    | some existing =>
      have hfm : existing ∈ events := List.mem_of_find?_eq_some hfind
      have h1 := List.find?_some hfind
      simp only [Bool.and_eq_true, beq_iff_eq] at h1
      have hpf : eventKeyMatches b u existing = false := by
        cases hx : eventKeyMatches b u existing
        · rfl
        · exfalso
          rcases (eventKeyMatches_eq_true_iff b u existing).mp hx with ⟨hxa, -⟩
          exact hba (hxa.symm.trans h1.1)
      rw [ih _ (List.Nodup.sublist
        (List.Sublist.map _ (List.filter_sublist _)) hn)]
      exact countP_filter_ne_id _ hn hfm hpf
    | none => exact ih _ hn

/-- Every uid in the deletion list ends with no cached row under the
account. -/
theorem deleteEventsLoop_removes (accountId : String) {u : String} :
    ∀ (uids : List String) (events : List EventDocument),
      EventIdsNodup events → (∀ a u', keyCount events a u' ≤ 1) →
      u ∈ uids →
      keyCount (deleteEventsLoop events accountId uids) accountId u = 0 := by
  intro uids
  induction uids with
  | nil => intro events _ _ hu; cases hu
  | cons uid rest ih =>
    intro events hn hk hu
    rcases List.mem_cons.mp hu with rfl | hur
    · cases hfind : findOneByUid events accountId u with
      | some existing =>
        simp only [deleteEventsLoop, hfind]
        have h0 : keyCount (events.filter
            (fun d => !(d.id == existing.id))) accountId u = 0 :=
          countP_zero_after_remove _ hn (hk _ _) hfind
        have := deleteEventsLoop_countP_le accountId
          (eventKeyMatches accountId u) rest
          (events.filter (fun d => !(d.id == existing.id)))
        rw [keyCount_eq_countP] at h0 ⊢
        omega
      | none =>
        simp only [deleteEventsLoop, hfind]
        have h0 : keyCount events accountId u = 0 := by
          rw [keyCount_eq_countP, List.countP_eq_zero]
          intro d hd
          exact List.find?_eq_none.mp hfind d hd
        have := deleteEventsLoop_countP_le accountId
          (eventKeyMatches accountId u) rest events
        rw [keyCount_eq_countP] at h0 ⊢
        omega
    · cases hfind : findOneByUid events accountId uid with
      | some existing =>
        simp only [deleteEventsLoop, hfind]
        exact ih _ (List.Nodup.sublist
            (List.Sublist.map _ (List.filter_sublist _)) hn)
          (fun a u' => (countP_filter_le _ _ _).trans (hk a u')) hur
      | none =>
        simp only [deleteEventsLoop, hfind]
        exact ih _ hn hk hur

/-- A keyed in-place update leaves `findOne` for other ids unchanged. -/
theorem find?_map_ite_other {α : Type} (idf : α → String) (g : α → α)
    (hg : ∀ x, idf (g x) = idf x) {tid bid : String} (hne : bid ≠ tid) :
    ∀ (l : List α),
      (l.map (fun x => if idf x == tid then g x else x)).find?
          (fun x => idf x == bid) = l.find? (fun x => idf x == bid) := by
  intro l
  induction l with
  | nil => rfl
  | cons x xs ih =>
    rw [List.map_cons]
    by_cases hx : (idf x == tid) = true
    · rw [if_pos hx]
      have hxb : (idf x == bid) = false :=
        beq_eq_false_iff_ne.mpr
          (fun he => hne (he.symm.trans (beq_iff_eq.mp hx)))
      have h1 : (idf (g x) == bid) = false := by rw [hg x]; exact hxb
      rw [@List.find?_cons_of_neg _ (fun y => idf y == bid) (g x) _
          (by simp [h1]),
        @List.find?_cons_of_neg _ (fun y => idf y == bid) x _ (by simp [hxb])]
      exact ih
    · rw [if_neg hx]
      by_cases hxb : (idf x == bid) = true
      · rw [@List.find?_cons_of_pos _ (fun y => idf y == bid) x _ hxb,
          @List.find?_cons_of_pos _ (fun y => idf y == bid) x _ hxb]
      · rw [@List.find?_cons_of_neg _ (fun y => idf y == bid) x _
            (by simp [hxb]),
          @List.find?_cons_of_neg _ (fun y => idf y == bid) x _
            (by simp [hxb])]
        exact ih

/-- A keyed in-place update maps `findOne` for the updated id. -/
theorem find?_map_ite_own {α : Type} (idf : α → String) (g : α → α)
    (hg : ∀ x, idf (g x) = idf x) (tid : String) :
    ∀ (l : List α),
      (l.map (fun x => if idf x == tid then g x else x)).find?
          (fun x => idf x == tid) =
        (l.find? (fun x => idf x == tid)).map g := by
  intro l
  induction l with
  | nil => rfl
  | cons x xs ih =>
    rw [List.map_cons]
    by_cases hx : (idf x == tid) = true
    · have h1 : (idf (g x) == tid) = true := by rw [hg x]; exact hx
      rw [if_pos hx,
        @List.find?_cons_of_pos _ (fun y => idf y == tid) (g x) _ h1,
        @List.find?_cons_of_pos _ (fun y => idf y == tid) x _ hx]
      rfl
    · rw [if_neg hx,
        @List.find?_cons_of_neg _ (fun y => idf y == tid) x _ (by simp [hx]),
        @List.find?_cons_of_neg _ (fun y => idf y == tid) x _ (by simp [hx])]
      exact ih

/-- The accounts a sync body leaves behind: unchanged, or with the
account's refreshed credentials stored. -/
theorem syncBody_accounts_cases (a : CalendarAccount) (st : SyncStore)
    (env : SyncEnv) :
    (syncBody a st env).1.accounts = st.accounts ∨
    ∃ c, (syncBody a st env).1.accounts =
      AccountsRepository.updateCredentials st.accounts a.id c env.now := by
  simp only [syncBody]
  split
  · exact Or.inl rfl
  · rename_i outcome _
    cases hper : outcome.persisted with
    | some c =>
      simp only [hper]
      split
      · exact Or.inr ⟨c, rfl⟩
      · split
        · exact Or.inr ⟨c, rfl⟩
        · split
          · exact Or.inr ⟨c, rfl⟩
          · exact Or.inr ⟨c, rfl⟩
    | none =>
      simp only [hper]
      split
      · exact Or.inl rfl
      · split
        · exact Or.inl rfl
        · split
          · exact Or.inl rfl
          · exact Or.inl rfl

/-- The events/counter a sync body leaves behind: unchanged, or the
upsert-then-delete chain of some provider result. -/
theorem syncBody_events_nextId (a : CalendarAccount) (st : SyncStore)
    (env : SyncEnv) :
    ((syncBody a st env).1.events = st.events ∧
      (syncBody a st env).1.nextId = st.nextId) ∨
    (∃ res : SyncResult,
      (syncBody a st env).1.events =
        (if res.deletedUids.isEmpty then
          (upsertEventsLoop st.events st.nextId a.id env.now res.events).1
         else
          deleteEventsLoop
            (upsertEventsLoop st.events st.nextId a.id env.now res.events).1
            a.id res.deletedUids) ∧
      (syncBody a st env).1.nextId =
        (upsertEventsLoop st.events st.nextId a.id env.now res.events).2) := by
  simp only [syncBody]
  split
  · exact Or.inl ⟨rfl, rfl⟩
  · split
    · exact Or.inl ⟨rfl, rfl⟩
    · split
      · exact Or.inl ⟨rfl, rfl⟩
      · split
        · exact Or.inr ⟨_, rfl, rfl⟩
        · exact Or.inr ⟨_, rfl, rfl⟩

/-- Deleting only other uids of the account leaves a key's count. -/
theorem deleteEventsLoop_other_uid (accountId : String) {u : String} :
    ∀ (uids : List String) (events : List EventDocument),
      EventIdsNodup events → u ∉ uids →
      keyCount (deleteEventsLoop events accountId uids) accountId u =
        keyCount events accountId u := by
  intro uids
  induction uids with
  | nil => intro events _ _; rfl
  | cons uid rest ih =>
    intro events hn hu
    have hune : u ≠ uid := fun he => hu (he ▸ List.mem_cons_self uid rest)
    have hur : u ∉ rest := fun hr => hu (List.mem_cons_of_mem _ hr)
    cases hfind : findOneByUid events accountId uid with
    | some existing =>
      simp only [deleteEventsLoop, hfind]
      have hfm : existing ∈ events := List.mem_of_find?_eq_some hfind
      have h1 := List.find?_some hfind
      simp only [Bool.and_eq_true, beq_iff_eq] at h1
      have hpf : eventKeyMatches accountId u existing = false := by
        cases hx : eventKeyMatches accountId u existing
        · rfl
        · exfalso
          rcases (eventKeyMatches_eq_true_iff accountId u existing).mp hx
            with ⟨-, hxu⟩
          exact hune (hxu.symm.trans h1.2)
      rw [ih _ (List.Nodup.sublist
        (List.Sublist.map _ (List.filter_sublist _)) hn) hur]
      exact countP_filter_ne_id _ hn hfm hpf
    | none =>
      simp only [deleteEventsLoop, hfind]
      exact ih _ hn hur

/-- The upsert-then-delete chain keeps the store invariants. -/
theorem syncChain_wf {events : List EventDocument} {n : Nat}
    (hn : EventIdsNodup events) (hk : ∀ a u, keyCount events a u ≤ 1)
    (hb : IdsBelow events n) (accountId : String) (now : Timestamp)
    (res : SyncResult) :
    EventIdsNodup (if res.deletedUids.isEmpty then
        (upsertEventsLoop events n accountId now res.events).1
      else deleteEventsLoop
        (upsertEventsLoop events n accountId now res.events).1 accountId
        res.deletedUids) ∧
    (∀ a u, keyCount (if res.deletedUids.isEmpty then
        (upsertEventsLoop events n accountId now res.events).1
      else deleteEventsLoop
        (upsertEventsLoop events n accountId now res.events).1 accountId
        res.deletedUids) a u ≤ 1) ∧
    IdsBelow (if res.deletedUids.isEmpty then
        (upsertEventsLoop events n accountId now res.events).1
      else deleteEventsLoop
        (upsertEventsLoop events n accountId now res.events).1 accountId
        res.deletedUids)
      (upsertEventsLoop events n accountId now res.events).2 := by
  obtain ⟨hn1, hk1, hb1⟩ :=
    upsertEventsLoop_wf accountId now res.events events n hn hk hb
  by_cases hemp : res.deletedUids.isEmpty
  · rw [if_pos hemp]
    exact ⟨hn1, hk1, hb1⟩
  · rw [if_neg hemp]
    refine ⟨deleteEventsLoop_nodup accountId res.deletedUids _ hn1, ?_, ?_⟩
    · intro a u
      rw [keyCount_eq_countP]
      exact (deleteEventsLoop_countP_le accountId _ res.deletedUids _).trans
        (hk1 a u)
    · exact deleteEventsLoop_idsBelow accountId res.deletedUids hb1

/-- One account's sync pass keeps the store well-formed. -/
theorem syncAccountEvents_wf {st : SyncStore} (hwf : StoreWf st)
    (a : CalendarAccount) (env : SyncEnv) :
    StoreWf (syncAccountEvents a st env) := by
  obtain ⟨hn, hk, hb⟩ := hwf
  have hch := syncBody_events_nextId a st env
  rcases hsb : syncBody a st env with ⟨s, flag⟩
  rw [hsb] at hch
  dsimp only at hch
  have hswf : EventIdsNodup s.events ∧
      (∀ au u, keyCount s.events au u ≤ 1) ∧ IdsBelow s.events s.nextId := by
    rcases hch with ⟨he, hni⟩ | ⟨res, he, hni⟩
    · rw [he, hni]
      exact ⟨hn, hk, hb⟩
    · rw [he, hni]
      exact syncChain_wf hn hk hb a.id env.now res
  cases flag with
  | none =>
    simp only [syncAccountEvents, hsb]
    exact hswf
  | some m =>
    simp only [syncAccountEvents, hsb]
    exact hswf

theorem lookupAccount_eq (st : SyncStore) (id : String) :
    lookupAccount st id = st.accounts.find? (fun c => c.id == id) := rfl

theorem find?_updateAccountById_own (accounts : List CalendarAccount)
    (id : String) (g : CalendarAccount → CalendarAccount)
    (hg : ∀ c, (g c).id = c.id) :
    (updateAccountById accounts id g).find? (fun c => c.id == id) =
      (accounts.find? (fun c => c.id == id)).map g :=
  find?_map_ite_own (fun c => c.id) g hg id accounts

theorem find?_updateAccountById_other (accounts : List CalendarAccount)
    (id : String) (g : CalendarAccount → CalendarAccount)
    (hg : ∀ c, (g c).id = c.id) {bid : String} (hne : bid ≠ id) :
    (updateAccountById accounts id g).find? (fun c => c.id == bid) =
      accounts.find? (fun c => c.id == bid) :=
  find?_map_ite_other (fun c => c.id) g hg hne accounts

/-- After the pass, the account document records the body's outcome:
`lastError` carries the thrown message (or is cleared on success) and
`lastSyncAt` is stamped with the pass time. -/
theorem syncAccountEvents_own (a : CalendarAccount) (st : SyncStore)
    (env : SyncEnv) {x : CalendarAccount}
    (hpres : lookupAccount st a.id = some x) :
    ∃ acct, lookupAccount (syncAccountEvents a st env) a.id = some acct ∧
      acct.lastError = (syncBody a st env).2 ∧
      acct.lastSyncAt = some env.now := by
  have hacc := syncBody_accounts_cases a st env
  rcases hsb : syncBody a st env with ⟨s, flag⟩
  rw [hsb] at hacc
  dsimp only at hacc
  rw [lookupAccount_eq] at hpres
  have hy : ∃ y, s.accounts.find? (fun c => c.id == a.id) = some y := by
    rcases hacc with he | ⟨c, he⟩
    · exact ⟨x, he ▸ hpres⟩
    · rw [he]
      unfold AccountsRepository.updateCredentials
      rw [find?_updateAccountById_own st.accounts a.id
        (fun acct => { acct with credentials := c, updatedAt := env.now })
        (fun acct => rfl), hpres]
      exact ⟨_, rfl⟩
  rcases hy with ⟨y, hy⟩
  cases flag with
  | none =>
    simp only [syncAccountEvents, hsb]
    refine ⟨{ y with
      lastSyncAt := some env.now, lastError := none,
      updatedAt := env.now }, ?_, rfl, rfl⟩
    rw [lookupAccount_eq]
    show (AccountsRepository.updateSyncStatus s.accounts a.id none
      env.now).find? (fun c => c.id == a.id) = _
    unfold AccountsRepository.updateSyncStatus
    rw [find?_updateAccountById_own s.accounts a.id
      (fun acct => { acct with
        lastSyncAt := some env.now, lastError := none,
        updatedAt := env.now })
      (fun acct => rfl), hy]
    rfl
  | some m =>
    simp only [syncAccountEvents, hsb]
    refine ⟨{ y with
      lastSyncAt := some env.now, lastError := some m,
      updatedAt := env.now }, ?_, rfl, rfl⟩
    rw [lookupAccount_eq]
    show (AccountsRepository.updateSyncStatus s.accounts a.id (some m)
      env.now).find? (fun c => c.id == a.id) = _
    unfold AccountsRepository.updateSyncStatus
    rw [find?_updateAccountById_own s.accounts a.id
      (fun acct => { acct with
        lastSyncAt := some env.now, lastError := some m,
        updatedAt := env.now })
      (fun acct => rfl), hy]
    rfl

/-- A sync pass of one account does not touch other accounts' documents
nor their cached events. -/
theorem syncAccountEvents_other (a : CalendarAccount) (st : SyncStore)
    (env : SyncEnv) (hwf : StoreWf st) {bid : String} (hne : bid ≠ a.id) :
    lookupAccount (syncAccountEvents a st env) bid = lookupAccount st bid ∧
    (∀ u, keyCount (syncAccountEvents a st env).events bid u =
      keyCount st.events bid u) := by
  obtain ⟨hn, hk, hb⟩ := hwf
  have hacc := syncBody_accounts_cases a st env
  have hch := syncBody_events_nextId a st env
  rcases hsb : syncBody a st env with ⟨s, flag⟩
  rw [hsb] at hacc hch
  dsimp only at hacc hch
  have hsacc : s.accounts.find? (fun c => c.id == bid) =
      st.accounts.find? (fun c => c.id == bid) := by
    rcases hacc with he | ⟨c, he⟩
    · rw [he]
    · rw [he]
      unfold AccountsRepository.updateCredentials
      exact find?_updateAccountById_other st.accounts a.id
        (fun acct => { acct with credentials := c, updatedAt := env.now })
        (fun acct => rfl) hne
  have hsev : ∀ u, keyCount s.events bid u = keyCount st.events bid u := by
    intro u
    rcases hch with ⟨he, -⟩ | ⟨res, he, -⟩
    · rw [he]
    · rw [he]
      obtain ⟨hn1, hk1, hb1⟩ :=
        upsertEventsLoop_wf a.id env.now res.events st.events st.nextId hn hk hb
      by_cases hemp : res.deletedUids.isEmpty
      · rw [if_pos hemp]
        exact upsertEventsLoop_other_account a.id env.now hne res.events
          st.events st.nextId hn hk hb
      · rw [if_neg hemp]
        rw [deleteEventsLoop_other_account a.id hne res.deletedUids _ hn1]
        exact upsertEventsLoop_other_account a.id env.now hne res.events
          st.events st.nextId hn hk hb
  constructor
  · cases flag with
    | none =>
      simp only [syncAccountEvents, hsb]
      rw [lookupAccount_eq, lookupAccount_eq]
      show (AccountsRepository.updateSyncStatus s.accounts a.id none
        env.now).find? (fun c => c.id == bid) = _
      unfold AccountsRepository.updateSyncStatus
      rw [find?_updateAccountById_other s.accounts a.id
        (fun acct => { acct with
          lastSyncAt := some env.now, lastError := none,
          updatedAt := env.now })
        (fun acct => rfl) hne]
      exact hsacc
    | some m =>
      simp only [syncAccountEvents, hsb]
      rw [lookupAccount_eq, lookupAccount_eq]
      show (AccountsRepository.updateSyncStatus s.accounts a.id (some m)
        env.now).find? (fun c => c.id == bid) = _
      unfold AccountsRepository.updateSyncStatus
      rw [find?_updateAccountById_other s.accounts a.id
        (fun acct => { acct with
          lastSyncAt := some env.now, lastError := some m,
          updatedAt := env.now })
        (fun acct => rfl) hne]
      exact hsacc
  · intro u
    cases flag with
    | none =>
      simp only [syncAccountEvents, hsb]
      exact hsev u
    | some m =>
      simp only [syncAccountEvents, hsb]
      exact hsev u

/-- All stages of one account's sync pass succeed against the given
environment: credentials refresh to `outcome`, the provider fetch
returns `res` (whatever cursor is stored), and the storage stages do
not throw. -/
def SyncSucceeds (a : CalendarAccount) (env : SyncEnv)
    (outcome : RefreshOutcome) (res : SyncResult) : Prop :=
  ensureFreshCredentials a env.config env.now env.refreshResponse =
      Except.ok outcome ∧
  (∀ cursor, env.fetch outcome.credentials cursor = Except.ok res) ∧
  env.upsertFail = none ∧ env.cursorFail = none

/-- Some stage of the account's sync pass throws `m`, whatever the
current store contents are. -/
def SyncFailsWith (a : CalendarAccount) (env : SyncEnv) (m : String) : Prop :=
  ∀ st, (syncBody a st env).2 = some m

/-- On success the body throws nothing and leaves the upsert-then-delete
chain of the fetched result in the event store. -/
theorem syncBody_success {a : CalendarAccount} {env : SyncEnv}
    {outcome : RefreshOutcome} {res : SyncResult} (st : SyncStore)
    (hsucc : SyncSucceeds a env outcome res) :
    (syncBody a st env).2 = none ∧
    (syncBody a st env).1.events =
      (if res.deletedUids.isEmpty then
        (upsertEventsLoop st.events st.nextId a.id env.now res.events).1
       else
        deleteEventsLoop
          (upsertEventsLoop st.events st.nextId a.id env.now res.events).1
          a.id res.deletedUids) := by
  obtain ⟨hok, hfetch, hup, hcur⟩ := hsucc
  simp only [syncBody, hok, hup, hcur, hfetch]
  exact ⟨trivial, trivial⟩

/-- After a fully successful pass, every fetched event whose uid was not
tombstoned is present in the cache under the account. -/
theorem syncAccountEvents_success_key (a : CalendarAccount) (st : SyncStore)
    (env : SyncEnv) {outcome : RefreshOutcome} {res : SyncResult}
    (hwf : StoreWf st) (hsucc : SyncSucceeds a env outcome res)
    {u : String} (hex : ∃ e ∈ res.events, e.uid = u)
    (hdel : u ∉ res.deletedUids) :
    keyCount (syncAccountEvents a st env).events a.id u = 1 := by
  obtain ⟨hn, hk, hb⟩ := hwf
  obtain ⟨hflag, hev⟩ := syncBody_success st hsucc
  rcases hsb : syncBody a st env with ⟨s, flag⟩
  rw [hsb] at hflag hev
  dsimp only at hflag hev
  subst hflag
  simp only [syncAccountEvents, hsb]
  rw [hev]
  obtain ⟨hn1, hk1, hb1⟩ :=
    upsertEventsLoop_wf a.id env.now res.events st.events st.nextId hn hk hb
  have hcount := upsertEventsLoop_keyCount_of_mem a.id env.now u res.events
    st.events st.nextId hn hk hb hex
  by_cases hemp : res.deletedUids.isEmpty
  · rw [if_pos hemp]
    exact hcount
  · rw [if_neg hemp]
    rw [deleteEventsLoop_other_uid a.id res.deletedUids _ hn1 hdel]
    exact hcount

/-- After a failed pass, the account's `lastError` records the thrown
message; after a successful pass it is cleared. -/
theorem syncAccountEvents_lastError (a : CalendarAccount) (st : SyncStore)
    (env : SyncEnv) {x : CalendarAccount}
    (hpres : lookupAccount st a.id = some x) :
    (∀ m, SyncFailsWith a env m →
      ∃ acct, lookupAccount (syncAccountEvents a st env) a.id = some acct ∧
        acct.lastError = some m ∧ acct.lastSyncAt = some env.now) ∧
    (∀ outcome res, SyncSucceeds a env outcome res →
      ∃ acct, lookupAccount (syncAccountEvents a st env) a.id = some acct ∧
        acct.lastError = none ∧ acct.lastSyncAt = some env.now) := by
  constructor
  · intro m hfail
    obtain ⟨acct, hl, he, hs⟩ := syncAccountEvents_own a st env hpres
    exact ⟨acct, hl, (hfail st) ▸ he, hs⟩
  · intro outcome res hsucc
    obtain ⟨acct, hl, he, hs⟩ := syncAccountEvents_own a st env hpres
    exact ⟨acct, hl, (syncBody_success st hsucc).1 ▸ he, hs⟩

theorem account_id_ne_of_not_mem {rest : List CalendarAccount} {tid : String}
    (h : tid ∉ rest.map (fun c => c.id)) : ∀ c ∈ rest, c.id ≠ tid :=
  fun _c hc hce => h (hce ▸ List.mem_map_of_mem (fun x => x.id) hc)

/-- One step of the all-accounts fold: disabled accounts are skipped. -/
def syncStep (env : CalendarAccount → SyncEnv) (st : SyncStore)
    (a : CalendarAccount) : SyncStore :=
  if a.enabled then syncAccountEvents a st (env a) else st

theorem syncAll_eq_foldl (store : SyncStore)
    (env : CalendarAccount → SyncEnv) :
    syncAllAccountsWithContext store env =
      (AccountsRepository.list store.accounts).foldl (syncStep env)
        store := rfl

/-- The all-accounts fold keeps the store well-formed. -/
theorem foldSync_wf (env : CalendarAccount → SyncEnv) :
    ∀ (l : List CalendarAccount) (st : SyncStore), StoreWf st →
      StoreWf (l.foldl (syncStep env) st) := by
  intro l
  induction l with
  | nil => intro st hwf; exact hwf
  | cons b rest ih =>
    intro st hwf
    rw [List.foldl_cons]
    refine ih _ ?_
    unfold syncStep
    by_cases hb : b.enabled
    · rw [if_pos hb]
      exact syncAccountEvents_wf hwf b (env b)
    · rw [if_neg hb]
      exact hwf

/-- Accounts whose id does not occur in the processed list keep their
document and their cached events through the fold. -/
theorem foldSync_preserves (env : CalendarAccount → SyncEnv) (tid : String) :
    ∀ (l : List CalendarAccount) (st : SyncStore), StoreWf st →
      (∀ b ∈ l, b.id ≠ tid) →
      lookupAccount (l.foldl (syncStep env) st) tid = lookupAccount st tid ∧
      (∀ u, keyCount (l.foldl (syncStep env) st).events tid u =
        keyCount st.events tid u) := by
  intro l
  induction l with
  | nil => intro st _ _; exact ⟨rfl, fun u => rfl⟩
  | cons b rest ih =>
    intro st hwf hne
    rw [List.foldl_cons]
    have hbne : tid ≠ b.id := fun he => hne b (List.mem_cons_self b rest) he.symm
    have hwf' : StoreWf (syncStep env st b) := by
      unfold syncStep
      by_cases hb : b.enabled
      · rw [if_pos hb]; exact syncAccountEvents_wf hwf b (env b)
      · rw [if_neg hb]; exact hwf
    have hstep : lookupAccount (syncStep env st b) tid = lookupAccount st tid ∧
        (∀ u, keyCount (syncStep env st b).events tid u =
          keyCount st.events tid u) := by
      unfold syncStep
      by_cases hb : b.enabled
      · rw [if_pos hb]
        exact syncAccountEvents_other b st (env b) hwf hbne
      · rw [if_neg hb]
        exact ⟨rfl, fun u => rfl⟩
    obtain ⟨h1, h2⟩ := ih (syncStep env st b) hwf'
      (fun c hc => hne c (List.mem_cons_of_mem _ hc))
    exact ⟨h1.trans hstep.1, fun u => (h2 u).trans (hstep.2 u)⟩

/-- Core induction for the all-accounts pass: every enabled account in
the (id-distinct) list ends with its own outcome recorded, regardless of
the other accounts' outcomes. -/
theorem foldSync_claims (env : CalendarAccount → SyncEnv) :
    ∀ (l : List CalendarAccount) (st : SyncStore), StoreWf st →
      (l.map (fun c => c.id)).Nodup →
      (∀ a ∈ l, ∃ x, lookupAccount st a.id = some x) →
      ∀ a ∈ l, a.enabled = true →
        (∀ m, SyncFailsWith a (env a) m →
          ∃ acct, lookupAccount (l.foldl (syncStep env) st) a.id = some acct ∧
            acct.lastError = some m ∧ acct.lastSyncAt = some (env a).now) ∧
        (∀ outcome res, SyncSucceeds a (env a) outcome res →
          (∃ acct,
            lookupAccount (l.foldl (syncStep env) st) a.id = some acct ∧
            acct.lastError = none ∧ acct.lastSyncAt = some (env a).now) ∧
          (∀ u, (∃ e ∈ res.events, e.uid = u) → u ∉ res.deletedUids →
            1 ≤ keyCount (l.foldl (syncStep env) st).events a.id u)) := by
  intro l
  induction l with
  | nil => intro st _ _ _ a ha; cases ha
  | cons b rest ih =>
    intro st hwf hnodup hpres a ha hen
    rw [List.map_cons, List.nodup_cons] at hnodup
    rw [List.foldl_cons]
    rcases List.mem_cons.mp ha with rfl | har
    · -- the head account itself
      have hstep : syncStep env st a = syncAccountEvents a st (env a) := by
        unfold syncStep
        rw [if_pos hen]
      have hwf' : StoreWf (syncStep env st a) := by
        rw [hstep]
        exact syncAccountEvents_wf hwf a (env a)
      have hrest_ne : ∀ c ∈ rest, c.id ≠ a.id :=
        account_id_ne_of_not_mem hnodup.1
      obtain ⟨x, hx⟩ := hpres a (List.mem_cons_self a rest)
      obtain ⟨hpost1, hpost2⟩ :=
        foldSync_preserves env a.id rest (syncStep env st a) hwf' hrest_ne
      constructor
      · intro m hfail
        obtain ⟨acct, hl, he, hs⟩ :=
          (syncAccountEvents_lastError a st (env a) hx).1 m hfail
        refine ⟨acct, ?_, he, hs⟩
        rw [hpost1, hstep]
        exact hl
      · intro outcome res hsucc
        constructor
        · obtain ⟨acct, hl, he, hs⟩ :=
            (syncAccountEvents_lastError a st (env a) hx).2 outcome res hsucc
          refine ⟨acct, ?_, he, hs⟩
          rw [hpost1, hstep]
          exact hl
        · intro u hexu hdelu
          have h1 := syncAccountEvents_success_key a st (env a) hwf hsucc
            hexu hdelu
          rw [hpost2 u, hstep, h1]
    · -- an account further down the list
      have hwf' : StoreWf (syncStep env st b) := by
        unfold syncStep
        by_cases hb : b.enabled
        · rw [if_pos hb]; exact syncAccountEvents_wf hwf b (env b)
        · rw [if_neg hb]; exact hwf
      have hpres' : ∀ c ∈ rest, ∃ x, lookupAccount (syncStep env st b) c.id
          = some x := by
        intro c hc
        obtain ⟨x, hx⟩ := hpres c (List.mem_cons_of_mem _ hc)
        have hcb : c.id ≠ b.id := account_id_ne_of_not_mem hnodup.1 c hc
        unfold syncStep
        by_cases hb : b.enabled
        · rw [if_pos hb]
          rw [(syncAccountEvents_other b st (env b) hwf hcb).1]
          exact ⟨x, hx⟩
        · rw [if_neg hb]
          exact ⟨x, hx⟩
      exact ih (syncStep env st b) hwf' hnodup.2 hpres' a har hen

/-- C1: every error raised at any stage of an account's sync pass
(credential refresh, provider fetch, cache upsert, cursor persist) is
caught and recorded as that account's `lastError` through
`updateSyncStatus`, and the pass returns normally (`syncAccountEvents`
and the fold are total; the error branch IS the recorded message).
Consequently, in `syncAllAccountsWithContext` a failing account never
prevents the sync of the other enabled accounts of the
`accountsRepo.list()` snapshot the pass iterates (the repository's
default page: the first 50 name-sorted accounts): each surviving
account of that snapshot ends with `lastError` cleared, its sync time
stamped, and its fetched events cached. -/
theorem sync_failures_isolated (store : SyncStore)
    (env : CalendarAccount → SyncEnv) (hwf : StoreWf store)
    (hnodup : (store.accounts.map (fun c => c.id)).Nodup) :
    ∀ a ∈ AccountsRepository.list store.accounts, a.enabled = true →
      (∀ m, SyncFailsWith a (env a) m →
        ∃ acct,
          lookupAccount (syncAllAccountsWithContext store env) a.id
            = some acct ∧
          acct.lastError = some m ∧ acct.lastSyncAt = some (env a).now) ∧
      (∀ outcome res, SyncSucceeds a (env a) outcome res →
        (∃ acct,
          lookupAccount (syncAllAccountsWithContext store env) a.id
            = some acct ∧
          acct.lastError = none ∧ acct.lastSyncAt = some (env a).now) ∧
        (∀ u, (∃ e ∈ res.events, e.uid = u) → u ∉ res.deletedUids →
          1 ≤ keyCount (syncAllAccountsWithContext store env).events
            a.id u)) := by
  intro a ha hen
  have hmem : ∀ c ∈ AccountsRepository.list store.accounts,
      c ∈ store.accounts := by
    intro c hc
    unfold AccountsRepository.list at hc
    exact (List.perm_insertionSort (fun a b => a.name ≤ b.name)
      store.accounts).subset
      ((List.take_sublist 50 (store.accounts.insertionSort
        (fun a b => a.name ≤ b.name))).subset hc)
  have hnodup' : ((AccountsRepository.list store.accounts).map
      (fun c => c.id)).Nodup := by
    unfold AccountsRepository.list
    have hsorted : ((store.accounts.insertionSort
        (fun a b => a.name ≤ b.name)).map
        (fun (c : CalendarAccount) => c.id)).Nodup :=
      ((List.perm_insertionSort (fun a b => a.name ≤ b.name)
        store.accounts).map (fun (c : CalendarAccount) => c.id)).nodup_iff.mpr
        hnodup
    exact List.Nodup.sublist
      ((List.take_sublist 50 (store.accounts.insertionSort
        (fun a b => a.name ≤ b.name))).map
        (fun (c : CalendarAccount) => c.id)) hsorted
  have hpres : ∀ c ∈ AccountsRepository.list store.accounts,
      ∃ x, lookupAccount store c.id = some x := by
    intro c hc
    rw [lookupAccount_eq]
    cases hf : store.accounts.find? (fun d => d.id == c.id) with
    | some y => exact ⟨y, rfl⟩
    | none =>
      exfalso
      exact absurd (by simp) ((List.find?_eq_none.mp hf) c (hmem c hc))
  rw [syncAll_eq_foldl]
  exact foldSync_claims env (AccountsRepository.list store.accounts)
    store hwf hnodup' hpres a ha hen

/-- Account A of the isolation scenario: an iCal-URL account whose feed
is unreachable. -/
def c1AccountA : CalendarAccount :=
  { id := "accA", userId := "user", provider := ProviderKind.ical,
    name := "A", url := some "https://a.example/cal.ics",
    authType := AuthType.nones, credentials := CalendarCredentials.nocreds,
    enabled := true, syncIntervalMs := 600000, lastSyncAt := none,
    lastError := none, createdAt := 0, updatedAt := 0 }

/-- Account B of the isolation scenario: a CalDAV account that syncs
fine. -/
def c1AccountB : CalendarAccount :=
  { id := "accB", userId := "user", provider := ProviderKind.caldav,
    name := "B", url := some "https://b.example/dav",
    authType := AuthType.password,
    credentials := CalendarCredentials.password "u" "p",
    enabled := true, syncIntervalMs := 600000, lastSyncAt := none,
    lastError := none, createdAt := 0, updatedAt := 0 }

/-- The event account B's provider returns. -/
def c1EventB : SyncEvent :=
  { calendarId := "calB", uid := "uidB", title := "B event",
    description := none, location := none, startAt := 5000, endAt := 6000,
    allDay := false, recurrenceRule := none, organizer := none,
    attendees := [], remoteUrl := none, etag := none, rawIcs := none }

/-- Account B's successful provider result. -/
def c1ResB : SyncResult :=
  { events := [c1EventB], deletedUids := [], syncToken := none,
    deltaLink := none, fullSync := true }

/-- The two-account store of the isolation scenario. -/
def c1Store : SyncStore :=
  { accounts := [c1AccountA, c1AccountB], events := [], syncStates := [],
    nextId := 0 }

/-- Per-account environments: A's feed fetch fails with HTTP 500, B's
succeeds. -/
def c1Env (a : CalendarAccount) : SyncEnv :=
  if a.provider = ProviderKind.ical then
    { now := 1000, config := {},
      refreshResponse := Except.error "no network",
      fetch := fun _ _ =>
        Except.error "Failed to fetch iCal data (HTTP 500)" }
  else
    { now := 2000, config := {},
      refreshResponse := Except.error "no network",
      fetch := fun _ _ => Except.ok c1ResB }

/-- Witness for `sync_failures_isolated`: after the pass, A records the
HTTP 500 message, B's error flag is clear and B's event is cached. -/
theorem sync_failures_isolated_witness :
    (∃ acct,
      lookupAccount (syncAllAccountsWithContext c1Store c1Env) "accA"
        = some acct ∧
      acct.lastError = some "Failed to fetch iCal data (HTTP 500)" ∧
      acct.lastSyncAt = some 1000) ∧
    (∃ acct,
      lookupAccount (syncAllAccountsWithContext c1Store c1Env) "accB"
        = some acct ∧
      acct.lastError = none ∧ acct.lastSyncAt = some 2000) ∧
    1 ≤ keyCount (syncAllAccountsWithContext c1Store c1Env).events
      "accB" "uidB" := by
  have hwf : StoreWf c1Store := by
    refine ⟨?_, ?_, ?_⟩
    · simp [EventIdsNodup, c1Store]
    · intro aid uid
      simp [keyCount, c1Store]
    · intro d hd
      simp [c1Store] at hd
  have hnodup : (c1Store.accounts.map (fun c => c.id)).Nodup := by decide
  have hlen : (c1Store.accounts.insertionSort
      (fun a b => a.name ≤ b.name)).length ≤ 50 := by
    rw [List.length_insertionSort]
    decide
  have hA : c1AccountA ∈ AccountsRepository.list c1Store.accounts := by
    unfold AccountsRepository.list
    rw [List.take_of_length_le hlen]
    exact (List.perm_insertionSort (fun a b => a.name ≤ b.name)
      c1Store.accounts).mem_iff.mpr
      (show c1AccountA ∈ c1Store.accounts by decide)
  have hB : c1AccountB ∈ AccountsRepository.list c1Store.accounts := by
    unfold AccountsRepository.list
    rw [List.take_of_length_le hlen]
    exact (List.perm_insertionSort (fun a b => a.name ≤ b.name)
      c1Store.accounts).mem_iff.mpr
      (show c1AccountB ∈ c1Store.accounts by decide)
  have H := sync_failures_isolated c1Store c1Env hwf hnodup
  have HA := (H c1AccountA hA rfl).1
    "Failed to fetch iCal data (HTTP 500)" (fun st => rfl)
  have HB := (H c1AccountB hB rfl).2
    ⟨CalendarCredentials.password "u" "p", false, none, none⟩ c1ResB
    ⟨rfl, fun cursor => rfl, rfl, rfl⟩
  exact ⟨HA, HB.1, HB.2 "uidB" ⟨c1EventB, by decide, rfl⟩ (by decide)⟩

/-! ## Google Calendar provider (src/providers/google.ts) -/

/-- A remote calendar as returned by `listCalendars`. -/
structure RemoteCalendar where
  id : String
  name : String
  color : Option String
  readOnly : Bool
deriving DecidableEq, Repr

/-- One item of a Google `events` response, with the fields the adapter
reads (`start`/`end` are flattened into their `dateTime`/`date`
members; in the wire format these are non-empty strings, so JS
truthiness on them is presence). -/
structure GoogleItem where
  id : String
  iCalUID : Option String
  status : Option String
  startDateTime : Option Timestamp
  startDate : Option Timestamp
  endDateTime : Option Timestamp
  endDate : Option Timestamp
  summary : Option String
  description : Option String
  location : Option String
  organizerEmail : Option String
  attendees : List String
  htmlLink : Option String
  etag : Option String
deriving DecidableEq, Repr

/-- One Google `events` response page. -/
structure GooglePage where
  items : List GoogleItem
  nextSyncToken : Option String
deriving DecidableEq, Repr

/-- `a || b` on the flattened date members (presence, see above). -/
def jsOrTime (a b : Option Timestamp) : Option Timestamp :=
  match a with
  | some t => some t
  | none => b

/-- The per-item loop of `GoogleCalendarProvider.syncEvents`: items with
`status == 'cancelled'` are tombstones — their uid (`iCalUID || id`,
when non-empty) goes to `deletedUids` and no event is built; items
without a start are skipped; all others become events with uid
`iCalUID || id` (the produced `accountId`/`createdAt`/`updatedAt` of the
source are dropped by the orchestrator's upsert and are omitted). -/
def googleItemsLoop (calId : String) :
    List GoogleItem → List SyncEvent × List String →
    List SyncEvent × List String
  | [], acc => acc
  | item :: rest, acc =>
    if item.status == some "cancelled" then
      let uid := jsOr item.iCalUID item.id
      let dels := if uid.isEmpty then acc.2 else acc.2 ++ [uid]
      googleItemsLoop calId rest (acc.1, dels)
    else
      match jsOrTime item.startDateTime item.startDate with
      | none => googleItemsLoop calId rest acc
      | some startAt =>
        let endAt := (jsOrTime item.endDateTime item.endDate).getD startAt
        let ev : SyncEvent :=
          { calendarId := calId, uid := jsOr item.iCalUID item.id,
            title := jsOr item.summary "(No title)",
            description := jsOrNull item.description,
            location := jsOrNull item.location,
            startAt := startAt, endAt := endAt,
            allDay := item.startDateTime.isNone,
            recurrenceRule := none,
            organizer := jsOrNull item.organizerEmail,
            attendees := item.attendees,
            remoteUrl := jsOrNull item.htmlLink,
            etag := jsOrNull item.etag, rawIcs := none }
        googleItemsLoop calId rest (acc.1 ++ [ev], acc.2)

/-- The per-calendar loop: a failing calendar fetch is silently skipped
for this pass; a page's `nextSyncToken` (when truthy) replaces the token
collected so far. -/
def googleSyncLoop
    (fetchPage : String → Option String → Except String GooglePage)
    (syncToken : Option String) :
    List RemoteCalendar → List SyncEvent × List String × Option String →
    List SyncEvent × List String × Option String
  | [], acc => acc
  | cal :: rest, acc =>
    match fetchPage cal.id syncToken with
    | Except.error _ => googleSyncLoop fetchPage syncToken rest acc
    | Except.ok page =>
      let newTok := match page.nextSyncToken with
        | some t => if t.isEmpty then acc.2.2 else some t
        | none => acc.2.2
      let step := googleItemsLoop cal.id page.items (acc.1, acc.2.1)
      googleSyncLoop fetchPage syncToken rest (step.1, step.2, newTok)

/-- `GoogleCalendarProvider.syncEvents`: list the calendars (a failure
there fails the sync), then walk them collecting events, tombstoned
uids and the newest sync token; `fullSync` iff no cursor was supplied.
`fetchPage` stands for the per-calendar `events` request (the URL —
token-based or time-ranged with `maxResults=2500` — is a function of
the calendar id and the cursor). -/
def GoogleCalendarProvider.syncEvents
    (calendarsResult : Except String (List RemoteCalendar))
    (fetchPage : String → Option String → Except String GooglePage)
    (syncToken : Option String) : Except String SyncResult :=
  match calendarsResult with
  | Except.error m => Except.error m
  | Except.ok calendars =>
    let r := googleSyncLoop fetchPage syncToken calendars ([], [], none)
    Except.ok
      { events := r.1, deletedUids := r.2.1, syncToken := r.2.2,
        fullSync := !(strPresent syncToken) }

/-- Uids already collected survive the rest of the item loop. -/
theorem googleItemsLoop_dels_mono (calId : String) (x : String) :
    ∀ (items : List GoogleItem) (acc : List SyncEvent × List String),
      x ∈ acc.2 → x ∈ (googleItemsLoop calId items acc).2 := by
  intro items
  induction items with
  | nil => intro acc h; exact h
  | cons item rest ih =>
    intro acc h
    simp only [googleItemsLoop]
    by_cases hst : (item.status == some "cancelled") = true
    · rw [if_pos hst]
      refine ih _ ?_
      by_cases hu : (jsOr item.iCalUID item.id).isEmpty
      · rw [if_pos hu]; exact h
      · rw [if_neg hu]
        exact List.mem_append_left _ h
    · rw [if_neg hst]
      cases hstart : jsOrTime item.startDateTime item.startDate with
      | none => exact ih acc h
      | some startAt => exact ih _ h

/-- A cancelled item with a non-empty uid lands in `deletedUids`. -/
theorem googleItemsLoop_collects (calId : String) {item : GoogleItem}
    {X : String} (hst : item.status = some "cancelled")
    (huid : jsOr item.iCalUID item.id = X) (hX : X.isEmpty = false) :
    ∀ (items : List GoogleItem) (acc : List SyncEvent × List String),
      item ∈ items → X ∈ (googleItemsLoop calId items acc).2 := by
  intro items
  induction items with
  | nil => intro acc h; cases h
  | cons it rest ih =>
    intro acc h
    rcases List.mem_cons.mp h with rfl | hr
    · simp only [googleItemsLoop]
      rw [if_pos (by rw [hst]; exact beq_self_eq_true _), huid, if_neg
        (by rw [hX]; exact Bool.false_ne_true)]
      exact googleItemsLoop_dels_mono calId X rest _
        (List.mem_append_right _ (List.mem_singleton.mpr rfl))
    · simp only [googleItemsLoop]
      by_cases hst2 : (it.status == some "cancelled") = true
      · rw [if_pos hst2]
        exact ih _ hr
      · rw [if_neg hst2]
        cases hstart : jsOrTime it.startDateTime it.startDate with
        | none => exact ih _ hr
        | some startAt => exact ih _ hr

/-- Uids already collected survive the rest of the calendar loop. -/
theorem googleSyncLoop_dels_mono
    (fetchPage : String → Option String → Except String GooglePage)
    (syncToken : Option String) (x : String) :
    ∀ (cals : List RemoteCalendar)
      (acc : List SyncEvent × List String × Option String),
      x ∈ acc.2.1 → x ∈ (googleSyncLoop fetchPage syncToken cals acc).2.1 := by
  intro cals
  induction cals with
  | nil => intro acc h; exact h
  | cons cal rest ih =>
    intro acc h
    simp only [googleSyncLoop]
    cases hf : fetchPage cal.id syncToken with
    | error m => exact ih acc h
    | ok page =>
      refine ih _ ?_
      exact googleItemsLoop_dels_mono cal.id x page.items (acc.1, acc.2.1) h

/-- A cancelled item on any successfully fetched calendar page lands in
the sync result's `deletedUids`. -/
theorem googleSyncLoop_collects
    (fetchPage : String → Option String → Except String GooglePage)
    (syncToken : Option String) {cal : RemoteCalendar} {page : GooglePage}
    {item : GoogleItem} {X : String}
    (hf : fetchPage cal.id syncToken = Except.ok page)
    (hit : item ∈ page.items) (hst : item.status = some "cancelled")
    (huid : jsOr item.iCalUID item.id = X) (hX : X.isEmpty = false) :
    ∀ (cals : List RemoteCalendar)
      (acc : List SyncEvent × List String × Option String),
      cal ∈ cals → X ∈ (googleSyncLoop fetchPage syncToken cals acc).2.1 := by
  intro cals
  induction cals with
  | nil => intro acc h; cases h
  | cons c rest ih =>
    intro acc h
    rcases List.mem_cons.mp h with rfl | hr
    · simp only [googleSyncLoop, hf]
      refine googleSyncLoop_dels_mono fetchPage syncToken X rest _ ?_
      exact googleItemsLoop_collects cal.id hst huid hX page.items
        (acc.1, acc.2.1) hit
    · simp only [googleSyncLoop]
      cases hfc : fetchPage c.id syncToken with
      | error m => exact ih acc hr
      | ok page2 => exact ih _ hr

/-- Success characterization of the body at the cursor actually stored
for the account. -/
theorem syncBody_success_at {a : CalendarAccount} {env : SyncEnv}
    {outcome : RefreshOutcome} {res : SyncResult} (st : SyncStore)
    (hok : ensureFreshCredentials a env.config env.now env.refreshResponse
      = Except.ok outcome)
    (hfetch : env.fetch outcome.credentials
      ((SyncStateRepository.get st.syncStates a.id).bind
        (fun s => s.syncToken)) = Except.ok res)
    (hup : env.upsertFail = none) (hcur : env.cursorFail = none) :
    (syncBody a st env).2 = none ∧
    (syncBody a st env).1.events =
      (if res.deletedUids.isEmpty then
        (upsertEventsLoop st.events st.nextId a.id env.now res.events).1
       else
        deleteEventsLoop
          (upsertEventsLoop st.events st.nextId a.id env.now res.events).1
          a.id res.deletedUids) := by
  simp only [syncBody, hok, hup, hcur, hfetch]
  exact ⟨trivial, trivial⟩

/-- C3: with a prior sync token, the Google adapter does not upsert a
`status=cancelled` remote item — it collects its iCal uid (falling back
to the item id) into `deletedUids` — and the enclosing
`syncAccountEvents` pass then deletes the cached event carrying that uid
for the account, clears `lastError` and stamps the sync time (the pass
succeeds). -/
theorem google_cancelled_tombstone_deletes
    (account : CalendarAccount) (st : SyncStore) (env : SyncEnv)
    (outcome : RefreshOutcome) (cals : List RemoteCalendar)
    (fetchPage : String → Option String → Except String GooglePage)
    (tok : String) (cal : RemoteCalendar) (page : GooglePage)
    (item : GoogleItem) (X : String) (x : CalendarAccount)
    (hwf : StoreWf st)
    (hpres : lookupAccount st account.id = some x)
    (henv : env.fetch = fun _creds cursor =>
      GoogleCalendarProvider.syncEvents (Except.ok cals) fetchPage cursor)
    (hok : ensureFreshCredentials account env.config env.now
      env.refreshResponse = Except.ok outcome)
    (hup : env.upsertFail = none) (hcur : env.cursorFail = none)
    (hcursor : (SyncStateRepository.get st.syncStates account.id).bind
      (fun s => s.syncToken) = some tok)
    (hcal : cal ∈ cals)
    (hpage : fetchPage cal.id (some tok) = Except.ok page)
    (hit : item ∈ page.items)
    (hst : item.status = some "cancelled")
    (huid : jsOr item.iCalUID item.id = X)
    (hX : X.isEmpty = false) :
    (∀ (cid : String) (acc : List SyncEvent × List String),
      googleItemsLoop cid [item] acc = (acc.1, acc.2 ++ [X])) ∧
    (∃ res, GoogleCalendarProvider.syncEvents (Except.ok cals) fetchPage
        (some tok) = Except.ok res ∧ X ∈ res.deletedUids) ∧
    findOneByUid (syncAccountEvents account st env).events account.id X
      = none ∧
    (∃ acct, lookupAccount (syncAccountEvents account st env) account.id
      = some acct ∧ acct.lastError = none ∧
      acct.lastSyncAt = some env.now) := by
  obtain ⟨hn, hk, hb⟩ := hwf
  have hdel : X ∈ (googleSyncLoop fetchPage (some tok) cals
      ([], [], none)).2.1 :=
    googleSyncLoop_collects fetchPage (some tok) hpage hit hst huid hX
      cals ([], [], none) hcal
  have hres : env.fetch outcome.credentials
      ((SyncStateRepository.get st.syncStates account.id).bind
        (fun s => s.syncToken)) =
      Except.ok
        { events := (googleSyncLoop fetchPage (some tok) cals
            ([], [], none)).1,
          deletedUids := (googleSyncLoop fetchPage (some tok) cals
            ([], [], none)).2.1,
          syncToken := (googleSyncLoop fetchPage (some tok) cals
            ([], [], none)).2.2,
          fullSync := !(strPresent (some tok)) } := by
    rw [henv, hcursor]
    rfl
  obtain ⟨hflag, hev⟩ := syncBody_success_at st hok hres hup hcur
  refine ⟨?_, ?_, ?_, ?_⟩
  · intro cid acc
    have h1 : (item.status == some "cancelled") = true := by
      rw [hst]
      exact beq_self_eq_true _
    simp only [googleItemsLoop, h1, if_true, huid, hX, Bool.false_eq_true,
      if_false]
  · exact ⟨_, rfl, hdel⟩
  · rcases hsb : syncBody account st env with ⟨s, flag⟩
    rw [hsb] at hflag hev
    dsimp only at hflag hev
    subst hflag
    simp only [syncAccountEvents, hsb]
    rw [hev]
    have hne : ¬(((googleSyncLoop fetchPage (some tok) cals
        ([], [], none)).2.1).isEmpty = true) := by
      intro he
      rw [List.isEmpty_iff] at he
      rw [he] at hdel
      cases hdel
    rw [if_neg hne]
    obtain ⟨hn1, hk1, hb1⟩ := upsertEventsLoop_wf account.id env.now _
      st.events st.nextId hn hk hb
    have h0 := deleteEventsLoop_removes account.id _ _ hn1 hk1 hdel
    rw [findOneByUid_eq_find?, List.find?_eq_none]
    intro d hd
    rw [keyCount_eq_countP, List.countP_eq_zero] at h0
    exact h0 d hd
  · obtain ⟨acct, hl, he, hs⟩ := syncAccountEvents_own account st env hpres
    rw [hflag] at he
    exact ⟨acct, hl, he, hs⟩

/-- The Google account of the tombstone scenario: OAuth2 credentials
well within the 5-minute buffer, so the pass runs without a refresh. -/
def c3Account : CalendarAccount :=
  { id := "accG", userId := "user", provider := ProviderKind.google,
    name := "G", url := none, authType := AuthType.oauth2,
    credentials := CalendarCredentials.oauth2 "at" "rt" 100000000,
    enabled := true, syncIntervalMs := 600000, lastSyncAt := none,
    lastError := some "old", createdAt := 0, updatedAt := 0 }

/-- The cached event the tombstone should delete. -/
def c3Doc : EventDocument :=
  { id := 0, accountId := "accG", calendarId := "calG", uid := "X",
    title := "Cancelled meeting", description := none, location := none,
    startAt := 5000, endAt := 6000, allDay := false,
    recurrenceRule := none, organizer := none, attendees := [],
    responseStatus := none, remoteUrl := none, etag := none,
    rawIcs := none, createdAt := 0, updatedAt := 0 }

/-- The persisted cursor: a prior sync token exists. -/
def c3State : SyncStateDocument :=
  { accountId := "accG", syncToken := some "tok", deltaLink := none,
    lastSyncAt := 0 }

/-- The single remote calendar of the scenario. -/
def c3Cal : RemoteCalendar :=
  { id := "calG", name := "Primary", color := none, readOnly := false }

/-- The cancelled remote item, carrying iCalUID `X`. -/
def c3Item : GoogleItem :=
  { id := "gid1", iCalUID := some "X", status := some "cancelled",
    startDateTime := none, startDate := none, endDateTime := none,
    endDate := none, summary := none, description := none,
    location := none, organizerEmail := none, attendees := [],
    htmlLink := none, etag := none }

/-- The single incremental page the Google API returns. -/
def c3Page : GooglePage :=
  { items := [c3Item], nextSyncToken := some "tok2" }

/-- The page fetcher of the scenario. -/
def c3FetchPage : String → Option String → Except String GooglePage :=
  fun _ _ => Except.ok c3Page

/-- The store before the pass: the account, the cached event, the
cursor. -/
def c3Store : SyncStore :=
  { accounts := [c3Account], events := [c3Doc], syncStates := [c3State],
    nextId := 1 }

/-- The scenario's environment: `fetch` is the Google provider run
against the one calendar and the page fetcher. -/
def c3Env : SyncEnv :=
  { now := 1000, config := {},
    refreshResponse := Except.error "no network",
    fetch := fun _creds cursor =>
      GoogleCalendarProvider.syncEvents (Except.ok [c3Cal]) c3FetchPage
        cursor }

/-- Witness for `google_cancelled_tombstone_deletes` at the concrete
scenario: the item is collected, it appears in `deletedUids`, the
cached event is gone afterwards and the pass ends clean. -/
theorem google_cancelled_tombstone_deletes_witness :
    googleItemsLoop "calG" [c3Item] ([], []) = ([], ["X"]) ∧
    (∃ res, GoogleCalendarProvider.syncEvents (Except.ok [c3Cal])
        c3FetchPage (some "tok") = Except.ok res ∧
        "X" ∈ res.deletedUids) ∧
    findOneByUid (syncAccountEvents c3Account c3Store c3Env).events
      "accG" "X" = none ∧
    (∃ acct, lookupAccount (syncAccountEvents c3Account c3Store c3Env)
      "accG" = some acct ∧ acct.lastError = none ∧
      acct.lastSyncAt = some 1000) := by
  have hwf : StoreWf c3Store := by
    refine ⟨by simp [EventIdsNodup, c3Store], ?_, ?_⟩
    · intro aid uid
      exact List.countP_le_length _
    · intro d hd
      simp only [c3Store, List.mem_singleton] at hd
      subst hd
      decide
  have H := google_cancelled_tombstone_deletes c3Account c3Store c3Env
    ⟨CalendarCredentials.oauth2 "at" "rt" 100000000, false, none, none⟩
    [c3Cal] c3FetchPage "tok" c3Cal c3Page c3Item "X" c3Account
    hwf rfl rfl rfl rfl rfl rfl (List.mem_singleton.mpr rfl) rfl
    (List.mem_singleton.mpr rfl) rfl rfl rfl
  exact ⟨H.1 "calG" ([], []), H.2.1, H.2.2.1, H.2.2.2⟩

/-! ## iCal parser (src/ical/parser.ts, the live version with
`userEmail`/PARTSTAT support — the iCloud call site passes the sixth
`userEmail` argument, which only this version accepts) -/

/-- `Date.toISOString()` under the file-wide integer-timestamp
convention: an injective rendering of the instant. -/
def isoString (t : Timestamp) : String := toString t

/-- JS `String.replace(pat, rep)` with a string pattern replaces the
first occurrence only. -/
def replaceFirst (s pat rep : String) : String :=
  match s.splitOn pat with
  | [] => s
  | [x] => x
  | x :: y :: rest => x ++ rep ++ String.intercalate pat (y :: rest)

/-- One ATTENDEE property as `buildEvent` reads it: `getFirstValue()`
(`none` models a non-string value) and the PARTSTAT parameter. -/
structure AttendeeProp where
  value : Option String
  partstat : Option String
deriving DecidableEq, Repr

/-- The face of an ical.js VEVENT/Event pair that `parseICalData`
consumes: scalar properties, the recurrence flag, and the occurrence
stream the iterator would yield (as (start, end) instants in order). -/
structure VEvent where
  uid : String
  summary : Option String
  description : Option String
  location : Option String
  isDate : Bool
  rrule : Option String
  organizer : Option String
  attendees : List AttendeeProp
  recurring : Bool
  occurrences : List (Timestamp × Timestamp)
  startDate : Timestamp
  endDate : Option Timestamp
  raw : String
deriving DecidableEq, Repr

/-- The parser's output row (`Omit<CalendarEvent, id/createdAt/updatedAt>`
including `accountId`). -/
structure ParsedEvent where
  accountId : String
  calendarId : String
  uid : String
  title : String
  description : Option String
  location : Option String
  startAt : Timestamp
  endAt : Timestamp
  allDay : Bool
  recurrenceRule : Option String
  organizer : Option String
  attendees : List String
  responseStatus : Option String
  remoteUrl : Option String
  etag : Option String
  rawIcs : Option String
deriving DecidableEq, Repr

/-- The attendee's address as compared against the user:
`typeof val === 'string' ? val.replace('mailto:', '').toLowerCase() : ''`. -/
def attendeeEmail (a : AttendeeProp) : String :=
  match a.value with
  | some s => (replaceFirst s "mailto:" "").toLower
  | none => ""

/-- The PARTSTAT switch of `buildEvent`; unknown values leave the status
null. -/
def partstatToStatus : Option String → Option String
  | some "ACCEPTED" => some "accepted"
  | some "DECLINED" => some "declined"
  | some "TENTATIVE" => some "tentative"
  | some "NEEDS-ACTION" => some "needsAction"
  | _ => none

/-- The user-RSVP extraction loop of `buildEvent`: when `userEmail` is
truthy, the first attendee whose address matches it (case-insensitively)
decides the status and the loop breaks. -/
def responseStatusFor (attendees : List AttendeeProp)
    (userEmail : Option String) : Option String :=
  match userEmail with
  | none => none
  | some ue =>
    if ue.isEmpty then none
    else
      match attendees.find? (fun a => attendeeEmail a == ue.toLower) with
      | some a => partstatToStatus a.partstat
      | none => none

/-- `buildEvent` (src/ical/parser.ts): the output row for one emitted
occurrence. -/
def buildEvent (v : VEvent) (uid accountId calendarId : String)
    (start stop : Timestamp) (userEmail : Option String) : ParsedEvent :=
  { accountId := accountId, calendarId := calendarId, uid := uid,
    title := jsOr v.summary "(No title)",
    description := jsOrNull v.description,
    location := jsOrNull v.location,
    startAt := start, endAt := stop,
    allDay := v.isDate,
    recurrenceRule := v.rrule,
    organizer := v.organizer.map (fun s => replaceFirst s "mailto:" ""),
    attendees := v.attendees.map (fun a =>
      match a.value with
      | some s => replaceFirst s "mailto:" ""
      | none => ""),
    responseStatus := responseStatusFor v.attendees userEmail,
    remoteUrl := none, etag := none, rawIcs := some v.raw }

/-- The `while (next && count < 365)` recurrence-expansion loop: break
on `start > to`, emit when `end >= from` under the synthesized uid
`uid_startISO`, advance the counter every iteration. -/
def expandLoop (v : VEvent) (accountId calendarId : String)
    (fromT toT : Timestamp) (userEmail : Option String) :
    List (Timestamp × Timestamp) → Nat → List ParsedEvent
  | [], _ => []
  | (start, stop) :: rest, count =>
    if count < 365 then
      if toT < start then []
      else if fromT ≤ stop then
        buildEvent v (v.uid ++ "_" ++ isoString start) accountId calendarId
            start stop userEmail ::
          expandLoop v accountId calendarId fromT toT userEmail rest
            (count + 1)
      else
        expandLoop v accountId calendarId fromT toT userEmail rest
          (count + 1)
    else []

/-- The per-VEVENT branch of `parseICalData`: recurring events expand
through the capped loop; single events emit iff they overlap the
range. -/
def parseVEvent (v : VEvent) (accountId calendarId : String)
    (fromT toT : Timestamp) (userEmail : Option String) :
    List ParsedEvent :=
  if v.recurring then
    expandLoop v accountId calendarId fromT toT userEmail v.occurrences 0
  else
    let start := v.startDate
    let stop := match v.endDate with
      | some e => e
      | none => start
    if fromT ≤ stop ∧ start ≤ toT then
      [buildEvent v v.uid accountId calendarId start stop userEmail]
    else []

/-- `parseICalData` (live version): concatenate the per-VEVENT rows in
feed order. -/
def parseICalData (vevents : List VEvent) (accountId calendarId : String)
    (fromT toT : Timestamp) (userEmail : Option String) :
    List ParsedEvent :=
  List.foldr
    (fun v acc => parseVEvent v accountId calendarId fromT toT userEmail
      ++ acc)
    [] vevents

/-- The expansion loop emits at most `365 - count` rows. -/
theorem expandLoop_length_le (v : VEvent) (accountId calendarId : String)
    (fromT toT : Timestamp) (userEmail : Option String) :
    ∀ (occs : List (Timestamp × Timestamp)) (count : Nat),
      (expandLoop v accountId calendarId fromT toT userEmail occs
        count).length ≤ 365 - count := by
  intro occs
  induction occs with
  | nil =>
    intro count
    simp [expandLoop]
  | cons p rest ih =>
    intro count
    rcases p with ⟨start, stop⟩
    by_cases h1 : count < 365
    · by_cases h2 : toT < start
      · simp [expandLoop, h1, h2]
      · by_cases h3 : fromT ≤ stop
        · simp only [expandLoop, if_pos h1, if_neg h2, if_pos h3,
            List.length_cons]
          have h4 := ih (count + 1)
          omega
        · simp only [expandLoop, if_pos h1, if_neg h2, if_neg h3]
          have h4 := ih (count + 1)
          omega
    · simp [expandLoop, h1]

/-- Every row the expansion loop emits carries the synthesized uid and
overlaps the requested range. -/
theorem expandLoop_mem (v : VEvent) (accountId calendarId : String)
    (fromT toT : Timestamp) (userEmail : Option String) :
    ∀ (occs : List (Timestamp × Timestamp)) (count : Nat)
      (e : ParsedEvent),
      e ∈ expandLoop v accountId calendarId fromT toT userEmail occs
        count →
      e.uid = v.uid ++ "_" ++ isoString e.startAt ∧
      e.accountId = accountId ∧ fromT ≤ e.endAt ∧ e.startAt ≤ toT := by
  intro occs
  induction occs with
  | nil =>
    intro count e he
    simp [expandLoop] at he
  | cons p rest ih =>
    intro count e he
    rcases p with ⟨start, stop⟩
    by_cases h1 : count < 365
    · by_cases h2 : toT < start
      · simp [expandLoop, h1, h2] at he
      · by_cases h3 : fromT ≤ stop
        · simp only [expandLoop, if_pos h1, if_neg h2, if_pos h3,
            List.mem_cons] at he
          rcases he with he | he
          · subst he
            exact ⟨rfl, rfl, h3, le_of_not_lt h2⟩
          · exact ih (count + 1) e he
        · simp only [expandLoop, if_pos h1, if_neg h2, if_neg h3] at he
          exact ih (count + 1) e he
    · simp [expandLoop, h1] at he

/-- C8: parsing a feed holding a recurring VEVENT emits at most 365
occurrence rows, and every emitted row carries the synthesized uid
`baseUid ++ "_" ++ startISO` of its own start instant, is tagged with
the requesting account and overlaps [from, to] — so each occurrence is
individually addressable under the (accountId, uid) reconciliation
key. -/
theorem parser_recurrence_cap_and_occurrence_uids
    (v : VEvent) (accountId calendarId : String)
    (fromT toT : Timestamp) (userEmail : Option String)
    (hrec : v.recurring = true) :
    (parseICalData [v] accountId calendarId fromT toT
      userEmail).length ≤ 365 ∧
    ∀ e ∈ parseICalData [v] accountId calendarId fromT toT userEmail,
      e.uid = v.uid ++ "_" ++ isoString e.startAt ∧
      e.accountId = accountId ∧
      fromT ≤ e.endAt ∧ e.startAt ≤ toT := by
  have hpe : parseICalData [v] accountId calendarId fromT toT userEmail
      = expandLoop v accountId calendarId fromT toT userEmail
          v.occurrences 0 := by
    simp [parseICalData, parseVEvent, hrec]
  rw [hpe]
  constructor
  · exact expandLoop_length_le v accountId calendarId fromT toT userEmail
      v.occurrences 0
  · intro e he
    exact expandLoop_mem v accountId calendarId fromT toT userEmail
      v.occurrences 0 e he

/-- A concrete recurring VEVENT: two daily occurrences inside the
range. -/
def c8VEvent : VEvent :=
  { uid := "base", summary := some "Standup", description := none,
    location := none, isDate := false, rrule := some "FREQ=DAILY",
    organizer := none, attendees := [], recurring := true,
    occurrences := [(1000, 2000), (86401000, 86402000)],
    startDate := 1000, endDate := some 2000, raw := "BEGIN:VEVENT" }

/-- Witness for `parser_recurrence_cap_and_occurrence_uids` at the
concrete feed. -/
theorem parser_recurrence_cap_and_occurrence_uids_witness :
    c8VEvent.recurring = true ∧
    ((parseICalData [c8VEvent] "acc" "cal" 0 100000000 none).length
      ≤ 365 ∧
    ∀ e ∈ parseICalData [c8VEvent] "acc" "cal" 0 100000000 none,
      e.uid = c8VEvent.uid ++ "_" ++ isoString e.startAt ∧
      e.accountId = "acc" ∧
      (0 : Timestamp) ≤ e.endAt ∧ e.startAt ≤ 100000000) :=
  ⟨rfl, parser_recurrence_cap_and_occurrence_uids c8VEvent "acc" "cal"
    0 100000000 none rfl⟩
